import Mathlib

/-!
# Birthday greeting service (`main.go`)

A shallow embedding of the request handlers of the service and of the parts of
Go's `time`, `regexp` and `float64` semantics they rely on, followed by
theorems about the handlers and about `daysUntil`.

Modelling conventions

* Go `int`/`int64` values are `Int`; the calendar arithmetic of package `time`
  stays far inside the 64-bit range for every year a `time.Time` can hold, so
  no wrap-around is modelled there. `Duration` saturates in `Time.Sub` as in Go.
* A `time.Time` is a wall-clock instant (nanoseconds since the Unix epoch)
  together with a `Location`; a `Location` is the table of offset transitions
  of a zone, and `Date` and the accessors of `Time` look the offset up in it
  as Go does.
* `time.Now()` is an explicit argument of every function that reads the clock;
  `getHandler` takes two readings, its own and the later one of `daysUntil`.
* `float64` values are exact integers counted in units of `2^-1074` (every
  finite double is such a multiple); arithmetic rounds to nearest, ties to
  even, with a 53-bit significand.
* The database is the list of rows of table `users` together with a flag that
  tells whether statements fail; the path parameter and the outcome of JSON
  binding are the two fields of the request context.
-/

namespace Birthday

/-! ## Package `time`: calendar -/

/-- A `time.Location`: the offset (seconds east of UTC) in force before the
first transition (the zone Go's `lookupFirstZone` selects) and the
transitions of the zone, each the Unix second from which an offset is in
force, in increasing order of time. Transitions that Go derives from the
zone's extend rule are part of the list. A location without transitions has
one fixed offset (`time.UTC`, `time.FixedZone`). -/
structure Location where
  first : Int
  tx : List (Int × Int)
deriving DecidableEq

/-- The location `time.UTC`. -/
def UTC : Location := ⟨0, []⟩

/-- Go `alpha`, the start of the first zone period. -/
def Location.alpha : Int := -9223372036854775808

/-- Go `omega`, the end of the last zone period. -/
def Location.omega : Int := 9223372036854775807

/-- The search of `Location.lookup` through the transitions: `cur` is the
offset in force and the Unix second since when; the result is the offset in
force at `sec`, the start and the end of its period. -/
def lookupFrom : List (Int × Int) → Int → Int × Int → Int × Int × Int
  | [], _, cur => (cur.1, cur.2, Location.omega)
  | tr :: rest, sec, cur =>
    if sec < tr.1 then (cur.1, cur.2, tr.1) else lookupFrom rest sec (tr.2, tr.1)

/-- Go `Location.lookup`: offset in force at the Unix second `sec`, start and
end of the period in which it is in force. -/
def Location.lookup (l : Location) (sec : Int) : Int × Int × Int :=
  lookupFrom l.tx sec (l.first, Location.alpha)

/-- A `time.Time`: nanoseconds since 1970-01-01T00:00:00Z and a location
used for presentation (`Year`, `Month`, `Day`, `Clock`). -/
structure Time where
  ns : Int
  loc : Location
deriving DecidableEq

/-- Go `isLeap`. -/
def isLeap (year : Int) : Bool :=
  year % 4 == 0 && (year % 100 != 0 || year % 400 == 0)

/-- Go table `daysBefore`: `daysBefore m` counts the days of a non-leap year
before month `m+1`; the callers index it with `0..12` only. -/
def daysBefore (m : Int) : Int :=
  match m.toNat with
  | 0 => 0
  | 1 => 31
  | 2 => 59
  | 3 => 90
  | 4 => 120
  | 5 => 151
  | 6 => 181
  | 7 => 212
  | 8 => 243
  | 9 => 273
  | 10 => 304
  | 11 => 334
  | _ => 365

/-- Go `daysIn`. -/
def daysIn (m : Int) (year : Int) : Int :=
  if m = 2 ∧ isLeap year = true then 29 else daysBefore m - daysBefore (m - 1)

/-- Go `norm`: returns `nhi, nlo` with `hi * base + lo = nhi * base + nlo`
and `0 ≤ nlo < base`. -/
def norm (hi lo base : Int) : Int × Int :=
  (hi + lo / base, lo % base)

/-- Go `daysSinceEpoch`, counted from 0001-01-01: the number of days from
January 1 of year 1 to January 1 of `year`. -/
def daysSinceEpoch (year : Int) : Int :=
  365 * (year - 1) + (year - 1) / 4 - (year - 1) / 100 + (year - 1) / 400

/-- Days from 0001-01-01 to 1970-01-01. -/
def unixEpochDays : Int := 719162

/-- The offset that `time.Date` takes off a wall time given as seconds `unix`
as if it were UTC: the offset in force at that second, or, when the instant so
obtained lies outside the period of that offset, the offset in force at that
instant. -/
def dateOffset (loc : Location) (unix : Int) : Int :=
  let zone := loc.lookup unix
  if zone.1 ≠ 0 then
    let utc := unix - zone.1
    if utc < zone.2.1 ∨ zone.2.2 ≤ utc then (loc.lookup utc).1 else zone.1
  else zone.1

/-- Go `time.Date`: the fields are normalised, the wall time is turned into
seconds as if it were UTC, and the offset of the location is taken off. -/
def Date (year month day hour min sec nsec : Int) (loc : Location) : Time :=
  let ym := norm year (month - 1) 12
  let year := ym.1
  let month := ym.2 + 1
  let sn := norm sec nsec 1000000000
  let ms := norm min sn.1 60
  let hm := norm hour ms.1 60
  let dh := norm day hm.1 24
  let d := daysSinceEpoch year + daysBefore (month - 1)
    + (if isLeap year = true ∧ 3 ≤ month then 1 else 0) + (dh.1 - 1)
  let abs := d * 86400 + (dh.2 * 3600 + hm.2 * 60 + ms.2)
  let unix := abs - unixEpochDays * 86400
  ⟨(unix - dateOffset loc unix) * 1000000000 + sn.2, loc⟩

/-- Go `Time.Zone` (offset part): the offset in force at the instant `t` in
its location, in seconds east of UTC. -/
def Time.Zone (t : Time) : Int :=
  (t.loc.lookup (t.ns / 1000000000)).1

/-- Go `Time.abs`: seconds since 0001-01-01T00:00:00 in the time's location. -/
def Time.abs (t : Time) : Int :=
  t.ns / 1000000000 + t.Zone + unixEpochDays * 86400

/-- Go `absDate` (year part): year and zero-based day of the year of the day
that is `d0` days after 0001-01-01. -/
def absYear (d0 : Int) : Int × Int :=
  let n400 := d0 / 146097
  let d1 := d0 - 146097 * n400
  let n100 := d1 / 36524
  let n100 := n100 - n100 / 4
  let d2 := d1 - 36524 * n100
  let n4 := d2 / 1461
  let d3 := d2 - 1461 * n4
  let n1 := d3 / 365
  let n1 := n1 - n1 / 4
  let yday := d3 - 365 * n1
  (1 + 400 * n400 + 100 * n100 + 4 * n4 + n1, yday)

/-- Go `absDate` (month estimate): month and day of the zero-based day `day`
of a year once a leap day, if any, has been taken out. The month is first
estimated as if every month had 31 days and then adjusted by at most one. -/
def monthDayCommon (day : Int) : Int × Int :=
  let month := day / 31
  let fin := daysBefore (month + 1)
  if fin ≤ day then (month + 2, day - fin + 1)
  else (month + 1, day - daysBefore month + 1)

/-- Go `absDate` (month and day part) from the year and the zero-based day of
the year. -/
def monthDay (year yday : Int) : Int × Int :=
  if isLeap year = true ∧ yday = 59 then (2, 29)
  else monthDayCommon (if isLeap year = true ∧ 59 < yday then yday - 1 else yday)

/-- Go `Time.Date`: year, month and day of `t` in its location. -/
def Time.Date (t : Time) : Int × Int × Int :=
  let yd := absYear (t.abs / 86400)
  let md := monthDay yd.1 yd.2
  (yd.1, md.1, md.2)

/-- Go `Time.Year`. -/
def Time.Year (t : Time) : Int := t.Date.1

/-- Go `Time.Month`. -/
def Time.Month (t : Time) : Int := t.Date.2.1

/-- Go `Time.Day`. -/
def Time.Day (t : Time) : Int := t.Date.2.2

/-- Go `Time.Clock`: hour, minute and second within the day. -/
def Time.Clock (t : Time) : Int × Int × Int :=
  let sec := t.abs % 86400
  let hour := sec / 3600
  let sec := sec - hour * 3600
  let min := sec / 60
  (hour, min, sec - min * 60)

/-- Go `Time.Nanosecond`. -/
def Time.Nanosecond (t : Time) : Int := t.ns % 1000000000

/-- Go `Time.Location`. -/
def Time.Location (t : Time) : Location := t.loc

/-- Go `Time.AddDate`. -/
def Time.AddDate (t : Time) (years months days : Int) : Time :=
  let ymd := t.Date
  let hms := t.Clock
  Birthday.Date (ymd.1 + years) (ymd.2.1 + months) (ymd.2.2 + days)
    hms.1 hms.2.1 hms.2.2 t.Nanosecond t.Location

/-- Go `Time.Before`. -/
def Time.Before (t u : Time) : Bool := decide (t.ns < u.ns)

/-- Go `Time.After`. -/
def Time.After (t u : Time) : Bool := decide (u.ns < t.ns)

/-- Largest `Duration`. -/
def maxDuration : Int := 9223372036854775807

/-- Smallest `Duration`. -/
def minDuration : Int := -9223372036854775808

/-- Go `Time.Sub`: the difference in nanoseconds, saturated to `int64`. -/
def Time.Sub (t u : Time) : Int :=
  let d := t.ns - u.ns
  if maxDuration < d then maxDuration
  else if d < minDuration then minDuration
  else d

/-! ## Calendar facts -/

/-- Day number (days since 0001-01-01) that `Date` computes for a year, a month
in `1..12` and a day of the month. -/
def dayNumber (year month day : Int) : Int :=
  daysSinceEpoch year + daysBefore (month - 1)
    + (if isLeap year = true ∧ 3 ≤ month then 1 else 0) + (day - 1)

/-- A month in `1..12` with a day that exists in that month of that year. -/
def validDate (year month day : Int) : Prop :=
  1 ≤ month ∧ month ≤ 12 ∧ 1 ≤ day ∧ day ≤ daysIn month year

/-- The instant at which day number `k` (days since 0001-01-01) begins in a
location `loc` without transitions. -/
def midnight (k : Int) (loc : Location) : Time :=
  ⟨((k - unixEpochDays) * 86400 - loc.first) * 1000000000, loc⟩

/-! ## `float64` -/

/-- A finite `float64`, given by the integer number of units of `2^-1074` it
holds. Infinities, NaN and the sign of zero are outside the model: the
operations below are used on hour counts of an `int64` duration, which stay
below `2^22`, and divide by the non-zero constants `3.6e12` and `24` only. -/
structure Float64 where
  units : Int
deriving DecidableEq

/-- Number of units in `1.0`. -/
def Float64.one : Nat := 2 ^ 1074

/-- Binary logarithm by repeated halving, at most `fuel` times. -/
def log2F : Nat → Nat → Nat
  | 0, _ => 0
  | fuel + 1, n => if 2 ≤ n then log2F fuel (n / 2) + 1 else 0

/-- The position of the leading bit: `2 ^ ilog2 n ≤ n < 2 ^ (ilog2 n + 1)` for
`n ≥ 1`. -/
def ilog2 (n : Nat) : Nat := log2F n n

/-- Rounding of the non-negative rational `a / q` (counted in units) to the
nearest `float64`, ties to even. Around a value whose leading bit is at
position `l` the doubles are `2 ^ (l - 52)` units apart (one unit apart below
`2 ^ 53` units, which covers the subnormal range), so the quotient is rounded
to a multiple `m * 2 ^ k` of that spacing with `m ≤ 2 ^ 53`. -/
def Float64.roundNat (a q : Nat) : Nat :=
  let k := ilog2 (a / q) - 52
  let spacing := q * 2 ^ k
  let f := a / spacing
  let r := a % spacing
  let m := if 2 * r < spacing then f else if spacing < 2 * r then f + 1 else f + f % 2
  m * 2 ^ k

/-- Rounding of the rational `num / den` (counted in units), `den > 0`. -/
def Float64.round (num : Int) (den : Nat) : Float64 :=
  if 0 ≤ num then ⟨Float64.roundNat num.toNat den⟩
  else ⟨-(Float64.roundNat (-num).toNat den : Nat)⟩

/-- Go conversion `float64(n)` of an integer. -/
def Float64.ofInt (n : Int) : Float64 := Float64.round (n * Float64.one) 1

/-- Go `x + y` on `float64`. -/
def Float64.add (x y : Float64) : Float64 := Float64.round (x.units + y.units) 1

/-- Go `x / y` on `float64`, for `y ≠ 0`. -/
def Float64.div (x y : Float64) : Float64 :=
  if 0 ≤ y.units then Float64.round (x.units * Float64.one) y.units.toNat
  else Float64.round (-(x.units * Float64.one)) (-y.units).toNat

/-- Go conversion `int(x)` of a `float64`: truncation toward zero. -/
def Float64.toInt (x : Float64) : Int := Int.tdiv x.units Float64.one

/-- Go `Duration.Hours`. -/
def Duration.Hours (d : Int) : Float64 :=
  let hour := Int.tdiv d 3600000000000
  let nsec := Int.tmod d 3600000000000
  Float64.add (Float64.ofInt hour)
    (Float64.div (Float64.ofInt nsec) (Float64.ofInt (60 * 60 * 1000000000)))

/-! ## `main.go` -/

/-- The character class `[A-Za-z]`. -/
def isLetter (c : Char) : Bool :=
  ('A' ≤ c && c ≤ 'Z') || ('a' ≤ c && c ≤ 'z')

/-- The method `usernameRE.MatchString` for the pattern `^[A-Za-z]+$`: the whole
text is a non-empty run of characters of the class (in Go `$` without the
`m` flag matches at the end of the text only). -/
def usernameRE.MatchString (s : String) : Bool :=
  !s.data.isEmpty && s.data.all isLetter

/-- Errors of the storage layer: `sql.ErrNoRows` or any other failure. -/
inductive DBError where
  | ErrNoRows
  | other
deriving DecidableEq

/-- The database behind the handle `*sql.DB`: the rows of table `users`
(`username` is the primary key) and whether statements currently fail
(connection lost, server down). A `DATE` column returns the midnight-UTC
instants that `putHandler` writes unchanged. -/
structure DB where
  users : List (String × Time)
  down : Bool
deriving DecidableEq

/-- The statement `INSERT ... ON CONFLICT (username) DO UPDATE SET birthdate`
on the rows of the table. -/
def upsertRows : List (String × Time) → String → Time → List (String × Time)
  | [], username, birth => [(username, birth)]
  | row :: rest, username, birth =>
    if row.1 = username then (row.1, birth) :: rest
    else row :: upsertRows rest username birth

/-- The statement `SELECT birthdate FROM users WHERE username = $1`. -/
def selectBirth : List (String × Time) → String → Option Time
  | [], _ => none
  | row :: rest, username => if row.1 = username then some row.2 else selectBirth rest username

/-- Go `upsertUser`: the new state of the database, or the error. -/
def upsertUser (db : DB) (username : String) (birth : Time) : Except DBError DB :=
  if db.down = true then .error .other
  else .ok { db with users := upsertRows db.users username birth }

/-- Go `getUserBirth`. -/
def getUserBirth (db : DB) (username : String) : Except DBError Time :=
  if db.down = true then .error .other
  else
    match selectBirth db.users username with
    | some birth => .ok birth
    | none => .error .ErrNoRows

/-- Go `putPayload`. -/
structure putPayload where
  DateOfBirth : String
deriving DecidableEq

/-- The decimal digits `0`-`9`. -/
def isDigit (c : Char) : Bool := '0' ≤ c && c ≤ '9'

/-- Value of a decimal digit. -/
def digitVal (c : Char) : Int := (c.toNat : Int) - ('0'.toNat : Int)

/-- The fields that `time.Parse` reads with the layout `2006-01-02`: four
digits of year, `-`, two digits of month, `-`, two digits of day and nothing
else. -/
def parseFields (s : String) : Option (Int × Int × Int) :=
  match s.data with
  | [y1, y2, y3, y4, s1, m1, m2, s2, d1, d2] =>
    if isDigit y1 && isDigit y2 && isDigit y3 && isDigit y4 && s1 == '-'
        && isDigit m1 && isDigit m2 && s2 == '-' && isDigit d1 && isDigit d2 then
      some (1000 * digitVal y1 + 100 * digitVal y2 + 10 * digitVal y3 + digitVal y4,
        10 * digitVal m1 + digitVal m2, 10 * digitVal d1 + digitVal d2)
    else none
  | _ => none

/-- Go `parseDate`, that is `time.Parse("2006-01-02", s)`: the fields are read,
the month must be in `1..12` and the day must exist in that month of that
year. The result is midnight UTC of that date. -/
def parseDate (s : String) : Option Time :=
  match parseFields s with
  | none => none
  | some (year, month, day) =>
    if month < 1 ∨ 12 < month then none
    else if day < 1 ∨ daysIn month year < day then none
    else some (Date year month day 0 0 0 0 UTC)

/-- Go `daysUntil`; `now` is the value of `time.Now()` read in its first line. -/
def daysUntil (now : Time) (birth : Time) : Int :=
  let thisYear := Date now.Year birth.Month birth.Day 0 0 0 0 now.Location
  let thisYear := if thisYear.Before now = true then thisYear.AddDate 1 0 0 else thisYear
  Float64.toInt (Float64.div (Duration.Hours (thisYear.Sub now)) (Float64.ofInt 24))

/-- Body of a response: nothing, a plain text (`c.String`), or the JSON object
with the single member `message` (`c.JSON` with `gin.H`). -/
inductive Body where
  | empty
  | text (s : String)
  | json (message : String)
deriving DecidableEq

/-- Response written to the `gin.Context`. -/
structure Response where
  status : Nat
  body : Body
deriving DecidableEq

/-- Request side of a `gin.Context`: the path parameter `username`
(`c.Param("username")`) and the outcome of `c.ShouldBindJSON(&p)` on the
request body, `none` when binding returns an error. -/
structure Context where
  username : String
  payload : Option putPayload
deriving DecidableEq

/-- Go `putHandler`: the response and the database after the request; `now` is
the value of `time.Now()`. -/
def putHandler (db : DB) (now : Time) (c : Context) : Response × DB :=
  let username := c.username
  if usernameRE.MatchString username = false then
    (⟨400, .text "username must contain only letters"⟩, db)
  else
    match c.payload with
    | none => (⟨400, .text "invalid JSON"⟩, db)
    | some p =>
      match parseDate p.DateOfBirth with
      | none => (⟨400, .text "invalid date format, use YYYY-MM-DD"⟩, db)
      | some birth =>
        if birth.After now = true then
          (⟨400, .text "date of birth must be before today"⟩, db)
        else
          match upsertUser db username birth with
          | .error _ => (⟨500, .text "database error"⟩, db)
          | .ok db' => (⟨204, .empty⟩, db')

/-- Go `getHandler`: `now` is the value of `time.Now()` read by the handler,
`nowDays` the value read afterwards inside `daysUntil`. -/
def getHandler (db : DB) (now nowDays : Time) (c : Context) : Response :=
  let username := c.username
  match getUserBirth db username with
  | .error .ErrNoRows => ⟨404, .text "user not found"⟩
  | .error _ => ⟨500, .text "database error"⟩
  | .ok birth =>
    let bdayThisYear := Date now.Year birth.Month birth.Day 0 0 0 0 now.Location
    let msg :=
      if now.Month = bdayThisYear.Month ∧ now.Day = bdayThisYear.Day then
        "Hello, " ++ username ++ "! Happy birthday!"
      else
        let days := daysUntil nowDays birth
        "Hello, " ++ username ++ "! Your birthday is in " ++ toString days ++ " day(s)"
    ⟨200, .json msg⟩

/-- Go `livenessHandler`. -/
def livenessHandler : Response := ⟨200, .empty⟩

/-- Go `readinessHandler`. -/
def readinessHandler (db : DB) : Response :=
  if db.down = true then ⟨503, .text "database unreachable"⟩ else ⟨200, .empty⟩

/-! ## Notions used in the statements -/

/-- A natural number of units that a `float64` can hold: a significand of at
most 53 bits times a power of two. -/
def representable (b : Nat) : Prop := ∃ m j : Nat, b = m * 2 ^ j ∧ m ≤ 2 ^ 53

/-- The date that `daysUntil` counts to: this year's occurrence of the month
and day of `birth`, or the one a year later when this year's is before `now`. -/
def candidate (now birth : Time) : Time :=
  let thisYear := Date now.Year birth.Month birth.Day 0 0 0 0 now.Location
  if thisYear.Before now = true then thisYear.AddDate 1 0 0 else thisYear

/-- The message that `getHandler` puts in its `200` response for a stored
birth date. -/
def greeting (now nowDays : Time) (username : String) (birth : Time) : String :=
  let bdayThisYear := Date now.Year birth.Month birth.Day 0 0 0 0 now.Location
  if now.Month = bdayThisYear.Month ∧ now.Day = bdayThisYear.Day then
    "Hello, " ++ username ++ "! Happy birthday!"
  else
    "Hello, " ++ username ++ "! Your birthday is in " ++ toString (daysUntil nowDays birth)
      ++ " day(s)"

/-- A `PUT /hello/{username}` request as it reaches `putHandler`: the clock
reading, whether the database fails during the request, and the context. -/
structure PutRequest where
  now : Time
  down : Bool
  ctx : Context

/-- The rows of table `users` after a sequence of `PUT` requests. -/
def runPuts : List (String × Time) → List PutRequest → List (String × Time)
  | users, [] => users
  | users, r :: rest => runPuts (putHandler ⟨users, r.down⟩ r.now r.ctx).2.users rest

/-- The instant `t` lies on the calendar day before the birthday, after that
day's midnight: the midnight that begins the day of `t` is before `t`, and
the midnight that ends it (day of the month plus one, normalised by `Date`)
passes the test by which `getHandler` recognises the birthday. -/
def dayBeforeBirthday (t birth : Time) : Prop :=
  (Date t.Year t.Month t.Day 0 0 0 0 t.Location).ns < t.ns ∧
  (Date t.Year t.Month (t.Day + 1) 0 0 0 0 t.Location).Month =
    (Date (Date t.Year t.Month (t.Day + 1) 0 0 0 0 t.Location).Year birth.Month birth.Day
      0 0 0 0 (Date t.Year t.Month (t.Day + 1) 0 0 0 0 t.Location).Location).Month ∧
  (Date t.Year t.Month (t.Day + 1) 0 0 0 0 t.Location).Day =
    (Date (Date t.Year t.Month (t.Day + 1) 0 0 0 0 t.Location).Year birth.Month birth.Day
      0 0 0 0 (Date t.Year t.Month (t.Day + 1) 0 0 0 0 t.Location).Location).Day

/-- Every offset of the location is within `b` seconds of UTC. -/
def Location.offsetsWithin (l : Location) (b : Int) : Prop :=
  (-b ≤ l.first ∧ l.first ≤ b) ∧ ∀ tr ∈ l.tx, -b ≤ tr.2 ∧ tr.2 ≤ b

/-- The zone `America/New_York` around 2024: Eastern Standard Time, daylight
time from 2024-03-10T07:00Z, standard time from 2024-11-03T06:00Z, daylight
time from 2025-03-09T07:00Z. -/
def NewYork : Location :=
  ⟨-18000, [(1710054000, -14400), (1730613600, -18000), (1741503600, -14400)]⟩

/-- The zone `America/Havana` around 2024: Cuba Standard Time, daylight time
from 2024-03-10T05:00Z (local midnight, which is skipped), standard time from
2024-11-03T05:00Z, daylight time from 2025-03-09T05:00Z. -/
def Havana : Location :=
  ⟨-18000, [(1710046800, -14400), (1730610000, -18000), (1741496400, -14400)]⟩

/-! ## Calendar lemmas -/

theorem isLeap_iff (y : Int) :
    isLeap y = true ↔ y % 4 = 0 ∧ (y % 100 ≠ 0 ∨ y % 400 = 0) := by
  simp [isLeap]

theorem month_table (y m : Int) (h1 : 1 ≤ m) (h12 : m ≤ 12) :
    (m = 1 ∧ daysBefore (m - 1) = 0 ∧ daysBefore m = 31 ∧ daysIn m y = 31) ∨
    (m = 2 ∧ daysBefore (m - 1) = 31 ∧ daysBefore m = 59 ∧ daysIn m y = (if isLeap y = true then 29 else 28)) ∨
    (m = 3 ∧ daysBefore (m - 1) = 59 ∧ daysBefore m = 90 ∧ daysIn m y = 31) ∨
    (m = 4 ∧ daysBefore (m - 1) = 90 ∧ daysBefore m = 120 ∧ daysIn m y = 30) ∨
    (m = 5 ∧ daysBefore (m - 1) = 120 ∧ daysBefore m = 151 ∧ daysIn m y = 31) ∨
    (m = 6 ∧ daysBefore (m - 1) = 151 ∧ daysBefore m = 181 ∧ daysIn m y = 30) ∨
    (m = 7 ∧ daysBefore (m - 1) = 181 ∧ daysBefore m = 212 ∧ daysIn m y = 31) ∨
    (m = 8 ∧ daysBefore (m - 1) = 212 ∧ daysBefore m = 243 ∧ daysIn m y = 31) ∨
    (m = 9 ∧ daysBefore (m - 1) = 243 ∧ daysBefore m = 273 ∧ daysIn m y = 30) ∨
    (m = 10 ∧ daysBefore (m - 1) = 273 ∧ daysBefore m = 304 ∧ daysIn m y = 31) ∨
    (m = 11 ∧ daysBefore (m - 1) = 304 ∧ daysBefore m = 334 ∧ daysIn m y = 30) ∨
    (m = 12 ∧ daysBefore (m - 1) = 334 ∧ daysBefore m = 365 ∧ daysIn m y = 31) := by
  have hm : m = 1 ∨ m = 2 ∨ m = 3 ∨ m = 4 ∨ m = 5 ∨ m = 6 ∨ m = 7 ∨ m = 8 ∨ m = 9 ∨ m = 10
      ∨ m = 11 ∨ m = 12 := by omega
  rcases hm with h | h | h | h | h | h | h | h | h | h | h | h <;> subst h <;>
    simp [daysBefore, daysIn]

theorem absYear_aux (n a d1 b d2 c d3 e y yd : Int)
    (ha : a = n / 146097) (hd1 : d1 = n - 146097 * a)
    (hb : b = d1 / 36524) (hd2 : d2 = d1 - 36524 * (b - b / 4))
    (hc : c = d2 / 1461) (hd3 : d3 = d2 - 1461 * c)
    (he : e = d3 / 365) (hyd : yd = d3 - 365 * (e - e / 4))
    (hy : y = 1 + 400 * a + 100 * (b - b / 4) + 4 * c + (e - e / 4)) :
    365 * (y - 1) + (y - 1) / 4 - (y - 1) / 100 + (y - 1) / 400 + yd = n ∧ 0 ≤ yd ∧
    (yd < 365 ∨ (yd = 365 ∧ y % 4 = 0 ∧ (y % 100 ≠ 0 ∨ y % 400 = 0))) := by
  have h1 : 0 ≤ d1 ∧ d1 < 146097 := by omega
  have hb' : b = 0 ∨ b = 1 ∨ b = 2 ∨ b = 3 ∨ b = 4 := by omega
  have h2 : 0 ≤ d2 ∧ d2 < 36525 := by omega
  have h3 : 0 ≤ d3 ∧ d3 < 1461 := by omega
  have he' : e = 0 ∨ e = 1 ∨ e = 2 ∨ e = 3 ∨ e = 4 := by omega
  rcases hb' with hb0 | hb0 | hb0 | hb0 | hb0 <;> rcases he' with he0 | he0 | he0 | he0 | he0 <;>
    subst hb0 <;> subst he0 <;> omega

/-- The year part of `absDate`: the day lies in the computed year, at the
computed offset. -/
theorem absYear_spec (n : Int) :
    daysSinceEpoch (absYear n).1 + (absYear n).2 = n ∧ 0 ≤ (absYear n).2 ∧
    (absYear n).2 < (if isLeap (absYear n).1 = true then 366 else 365) := by
  have h := absYear_aux n _ _ _ _ _ _ _ (absYear n).1 (absYear n).2
    rfl rfl rfl rfl rfl rfl rfl rfl rfl
  obtain ⟨h1, h2, h3⟩ := h
  refine ⟨h1, h2, ?_⟩
  split
  · rcases h3 with h3 | h3 <;> omega
  · rename_i hl
    rw [isLeap_iff] at hl
    rcases h3 with h3 | h3
    · exact h3
    · exact absurd ⟨h3.2.1, h3.2.2⟩ hl

theorem monthDayCommon_spec (day : Int) (h0 : 0 ≤ day) (h1 : day < 365) :
    1 ≤ (monthDayCommon day).1 ∧ (monthDayCommon day).1 ≤ 12 ∧
    1 ≤ (monthDayCommon day).2 ∧
    (monthDayCommon day).2 ≤
      daysBefore (monthDayCommon day).1 - daysBefore ((monthDayCommon day).1 - 1) ∧
    daysBefore ((monthDayCommon day).1 - 1) + ((monthDayCommon day).2 - 1) = day := by
  have hk : day / 31 = 0 ∨ day / 31 = 1 ∨ day / 31 = 2 ∨ day / 31 = 3 ∨ day / 31 = 4 ∨
      day / 31 = 5 ∨ day / 31 = 6 ∨ day / 31 = 7 ∨ day / 31 = 8 ∨ day / 31 = 9 ∨
      day / 31 = 10 ∨ day / 31 = 11 := by omega
  unfold monthDayCommon
  rcases hk with hk | hk | hk | hk | hk | hk | hk | hk | hk | hk | hk | hk <;>
    rw [hk] <;> simp [daysBefore] <;> split <;> simp [daysBefore] <;> omega

theorem daysSinceEpoch_succ (y : Int) :
    daysSinceEpoch (y + 1) = daysSinceEpoch y + (if isLeap y = true then 366 else 365) := by
  unfold daysSinceEpoch
  split
  · rename_i hl
    rw [isLeap_iff] at hl
    omega
  · rename_i hl
    rw [isLeap_iff] at hl
    omega

theorem daysSinceEpoch_lt (y z : Int) (h : y < z) :
    daysSinceEpoch y + (if isLeap y = true then 366 else 365) ≤ daysSinceEpoch z := by
  rw [← daysSinceEpoch_succ]
  unfold daysSinceEpoch
  omega

/-- The month and day part of `absDate` yields a date of the year and is the
inverse of the day count inside `Date`. -/
theorem monthDay_spec (y yd : Int) (h0 : 0 ≤ yd)
    (h1 : yd < (if isLeap y = true then 366 else 365)) :
    validDate y (monthDay y yd).1 (monthDay y yd).2 ∧
    daysBefore ((monthDay y yd).1 - 1)
      + (if isLeap y = true ∧ 3 ≤ (monthDay y yd).1 then 1 else 0)
      + ((monthDay y yd).2 - 1) = yd := by
  unfold monthDay validDate
  by_cases hl : isLeap y = true
  · simp only [hl, true_and, if_true] at h1 ⊢
    by_cases h59 : yd = 59
    · subst h59
      simp [daysBefore, daysIn, hl]
    · simp only [h59, if_false]
      by_cases hgt : 59 < yd
      · simp only [hgt, if_true]
        obtain ⟨a1, a2, a3, a4, a5⟩ := monthDayCommon_spec (yd - 1) (by omega) (by omega)
        have ht := month_table y _ a1 a2
        have ht2 : 0 ≤ (monthDayCommon (yd - 1)).2 := by omega
        refine ⟨⟨a1, a2, a3, ?_⟩, ?_⟩
        · rcases ht with h | h | h | h | h | h | h | h | h | h | h | h <;>
            (try simp only [hl, if_true] at h) <;> omega
        · rcases ht with h | h | h | h | h | h | h | h | h | h | h | h <;>
            (try simp only [hl, if_true] at h) <;> split <;> omega
      · simp only [hgt, if_false]
        obtain ⟨a1, a2, a3, a4, a5⟩ := monthDayCommon_spec yd (by omega) (by omega)
        have ht := month_table y _ a1 a2
        refine ⟨⟨a1, a2, a3, ?_⟩, ?_⟩
        · rcases ht with h | h | h | h | h | h | h | h | h | h | h | h <;>
            (try simp only [hl, if_true] at h) <;> omega
        · rcases ht with h | h | h | h | h | h | h | h | h | h | h | h <;>
            (try simp only [hl, if_true] at h) <;> split <;> omega
  · have hl' : isLeap y = false := by simpa using hl
    simp only [hl', Bool.false_eq_true, false_and, if_false] at h1 ⊢
    obtain ⟨a1, a2, a3, a4, a5⟩ := monthDayCommon_spec yd (by omega) (by omega)
    have ht := month_table y _ a1 a2
    refine ⟨⟨a1, a2, a3, ?_⟩, ?_⟩
    · rcases ht with h | h | h | h | h | h | h | h | h | h | h | h <;>
        (try simp only [hl', Bool.false_eq_true, if_false] at h) <;> omega
    · omega

/-- Within one year, the day count of `Date` orders the dates of that year
as the calendar does. -/
theorem yday_lt_of_lex (y m d m' d' : Int) (hv : validDate y m d) (hv' : validDate y m' d')
    (hlt : m < m' ∨ (m = m' ∧ d < d')) :
    daysBefore (m - 1) + (if isLeap y = true ∧ 3 ≤ m then 1 else 0) + (d - 1) <
    daysBefore (m' - 1) + (if isLeap y = true ∧ 3 ≤ m' then 1 else 0) + (d' - 1) := by
  obtain ⟨a1, a2, a3, a4⟩ := hv
  obtain ⟨b1, b2, b3, b4⟩ := hv'
  rcases hlt with hlt | ⟨rfl, hlt⟩
  · have ht := month_table y m a1 a2
    have ht' := month_table y m' b1 b2
    by_cases hl : isLeap y = true
    · simp only [hl, true_and, if_true] at ht ht' ⊢
      rcases ht with h | h | h | h | h | h | h | h | h | h | h | h <;>
        obtain ⟨rfl, h⟩ := h <;>
        rcases ht' with h' | h' | h' | h' | h' | h' | h' | h' | h' | h' | h' | h' <;>
        obtain ⟨rfl, h'⟩ := h' <;> omega
    · have hl' : isLeap y = false := by simpa using hl
      simp only [hl', Bool.false_eq_true, false_and, if_false] at ht ht' ⊢
      rcases ht with h | h | h | h | h | h | h | h | h | h | h | h <;>
        obtain ⟨rfl, h⟩ := h <;>
        rcases ht' with h' | h' | h' | h' | h' | h' | h' | h' | h' | h' | h' | h' <;>
        obtain ⟨rfl, h'⟩ := h' <;> omega
  · omega

theorem yday_bounds (y m d : Int) (hv : validDate y m d) :
    0 ≤ daysBefore (m - 1) + (if isLeap y = true ∧ 3 ≤ m then 1 else 0) + (d - 1) ∧
    daysBefore (m - 1) + (if isLeap y = true ∧ 3 ≤ m then 1 else 0) + (d - 1) <
      (if isLeap y = true then 366 else 365) := by
  obtain ⟨a1, a2, a3, a4⟩ := hv
  have ht := month_table y m a1 a2
  by_cases hl : isLeap y = true
  · simp only [hl, true_and, if_true] at ht ⊢
    rcases ht with h | h | h | h | h | h | h | h | h | h | h | h <;>
      obtain ⟨rfl, h⟩ := h <;> omega
  · have hl' : isLeap y = false := by simpa using hl
    simp only [hl', Bool.false_eq_true, false_and, if_false] at ht ⊢
    rcases ht with h | h | h | h | h | h | h | h | h | h | h | h <;>
      obtain ⟨rfl, h⟩ := h <;> omega

/-- The calendar order of dates is the order of their day numbers. -/
theorem dayNumber_lt_of_lex (y m d y' m' d' : Int) (hv : validDate y m d)
    (hv' : validDate y' m' d')
    (hlt : y < y' ∨ (y = y' ∧ (m < m' ∨ (m = m' ∧ d < d')))) :
    dayNumber y m d < dayNumber y' m' d' := by
  unfold dayNumber
  rcases hlt with hlt | ⟨rfl, hlt⟩
  · have h1 := daysSinceEpoch_lt y y' hlt
    have h2 := yday_bounds y m d hv
    have h3 := yday_bounds y' m' d' hv'
    omega
  · have h := yday_lt_of_lex y m d m' d' hv hv' hlt
    omega

/-- Distinct dates have distinct day numbers. -/
theorem dayNumber_inj (y m d y' m' d' : Int) (hv : validDate y m d)
    (hv' : validDate y' m' d') (h : dayNumber y m d = dayNumber y' m' d') :
    y = y' ∧ m = m' ∧ d = d' := by
  by_contra hne
  have hlex : (y < y' ∨ (y = y' ∧ (m < m' ∨ (m = m' ∧ d < d')))) ∨
      (y' < y ∨ (y' = y ∧ (m' < m ∨ (m' = m ∧ d' < d)))) := by omega
  rcases hlex with hlex | hlex
  · have := dayNumber_lt_of_lex y m d y' m' d' hv hv' hlex
    omega
  · have := dayNumber_lt_of_lex y' m' d' y m d hv' hv hlex
    omega

/-- The date that `absDate` computes for a day number is a date of the
calendar, and `Date` maps it back to that day number. -/
theorem absDate_spec (n : Int) :
    validDate (absYear n).1 (monthDay (absYear n).1 (absYear n).2).1
      (monthDay (absYear n).1 (absYear n).2).2 ∧
    dayNumber (absYear n).1 (monthDay (absYear n).1 (absYear n).2).1
      (monthDay (absYear n).1 (absYear n).2).2 = n := by
  obtain ⟨h1, h2, h3⟩ := absYear_spec n
  obtain ⟨h4, h5⟩ := monthDay_spec (absYear n).1 (absYear n).2 h2 h3
  refine ⟨h4, ?_⟩
  unfold dayNumber
  omega

/-- On the dates of the calendar `absDate` inverts the day count of `Date`. -/
theorem absDate_dayNumber (y m d : Int) (hv : validDate y m d) :
    (absYear (dayNumber y m d)).1 = y ∧
    (monthDay (absYear (dayNumber y m d)).1 (absYear (dayNumber y m d)).2).1 = m ∧
    (monthDay (absYear (dayNumber y m d)).1 (absYear (dayNumber y m d)).2).2 = d := by
  obtain ⟨h1, h2⟩ := absDate_spec (dayNumber y m d)
  exact dayNumber_inj _ _ _ _ _ _ h1 hv h2

/-- February 29 of a year without a leap day is counted as March 1. -/
theorem dayNumber_feb29 (y : Int) (hl : isLeap y = false) :
    dayNumber y 2 29 = dayNumber y 3 1 := by
  simp [dayNumber, daysBefore, hl]
  omega

/-- A date of some year is a date of every year, except February 29. -/
theorem validDate_year (y y' m d : Int) (hv : validDate y m d)
    (h : ¬ (m = 2 ∧ d = 29 ∧ isLeap y' = false)) : validDate y' m d := by
  obtain ⟨a1, a2, a3, a4⟩ := hv
  refine ⟨a1, a2, a3, ?_⟩
  have ht := month_table y m a1 a2
  have ht' := month_table y' m a1 a2
  rcases ht with h1 | h1 | h1 | h1 | h1 | h1 | h1 | h1 | h1 | h1 | h1 | h1 <;>
    obtain ⟨rfl, h1⟩ := h1 <;> simp at ht' <;> try omega
  by_cases hl : isLeap y' = true
  · simp only [hl, if_true] at ht'
    by_cases hl2 : isLeap y = true
    · simp only [hl2, if_true] at h1; omega
    · have hl2' : isLeap y = false := by simpa using hl2
      simp only [hl2', Bool.false_eq_true, if_false] at h1; omega
  · have hl' : isLeap y' = false := by simpa using hl
    simp only [hl', Bool.false_eq_true, if_false] at ht'
    simp only [hl', true_and, and_true] at h
    by_cases hl2 : isLeap y = true
    · simp only [hl2, if_true] at h1; omega
    · have hl2' : isLeap y = false := by simpa using hl2
      simp only [hl2', Bool.false_eq_true, if_false] at h1; omega

/-- The same calendar date one year later is 365 or 366 days later; `Date`
turns February 29 of the following year into March 1. -/
theorem dayNumber_next_year (y m d : Int) (hv : validDate y m d) :
    dayNumber (y + 1) m d = dayNumber y m d + 365 ∨
    dayNumber (y + 1) m d = dayNumber y m d + 366 := by
  obtain ⟨a1, a2, a3, a4⟩ := hv
  have hs := daysSinceEpoch_succ y
  unfold dayNumber
  by_cases hl : isLeap y = true <;> by_cases hl1 : isLeap (y + 1) = true <;>
    by_cases hm : 3 ≤ m <;> simp [hl, hl1, hm] at hs ⊢ <;> omega

/-! ## Facts about `Date`, `Time.Date` and `Time.AddDate` -/

/-- A location without transitions has its one offset in force at all times. -/
theorem lookup_fixed (loc : Location) (hloc : loc.tx = []) (sec : Int) :
    loc.lookup sec = (loc.first, Location.alpha, Location.omega) := by
  simp [Location.lookup, hloc, lookupFrom]

theorem Zone_fixed (t : Time) (hloc : t.loc.tx = []) : t.Zone = t.loc.first := by
  simp [Time.Zone, lookup_fixed _ hloc]

theorem dateOffset_fixed (loc : Location) (hloc : loc.tx = []) (unix : Int) :
    dateOffset loc unix = loc.first := by
  simp only [dateOffset, lookup_fixed _ hloc]
  split
  · split <;> rfl
  · rfl

/-- The instant `Date` builds for a month in `1..12` and a clock reading in
range: the wall time, in seconds since 0001-01-01, less the Unix epoch and
the offset. -/
theorem Date_wall (y m d h mi s n : Int) (loc : Location) (h1 : 1 ≤ m) (h12 : m ≤ 12)
    (hh : 0 ≤ h ∧ h < 24) (hmi : 0 ≤ mi ∧ mi < 60) (hs : 0 ≤ s ∧ s < 60)
    (hn : 0 ≤ n ∧ n < 1000000000) :
    Date y m d h mi s n loc =
      ⟨(dayNumber y m d * 86400 + (h * 3600 + mi * 60 + s) - unixEpochDays * 86400
          - dateOffset loc (dayNumber y m d * 86400 + (h * 3600 + mi * 60 + s)
            - unixEpochDays * 86400)) * 1000000000 + n, loc⟩ := by
  have e1 : (m - 1) / 12 = 0 := by omega
  have e2 : (m - 1) % 12 = m - 1 := by omega
  have e3 : n / 1000000000 = 0 := by omega
  have e4 : n % 1000000000 = n := by omega
  have e5 : s / 60 = 0 := by omega
  have e6 : s % 60 = s := by omega
  have e7 : mi / 60 = 0 := by omega
  have e8 : mi % 60 = mi := by omega
  have e9 : h / 24 = 0 := by omega
  have e10 : h % 24 = h := by omega
  simp only [Date, norm, dayNumber, e1, e2, e3, e4, e5, e6, e7, e8, e9, e10, add_zero,
    sub_add_cancel]

/-- With a month in `1..12` and a zero clock, in a location without
transitions, `Date` is the start of the day with the day number of the date. -/
theorem Date_eq_midnight (y m d : Int) (loc : Location) (hloc : loc.tx = [])
    (h1 : 1 ≤ m) (h12 : m ≤ 12) :
    Date y m d 0 0 0 0 loc = midnight (dayNumber y m d) loc := by
  rw [Date_wall y m d 0 0 0 0 loc h1 h12 (by omega) (by omega) (by omega) (by omega),
    dateOffset_fixed _ hloc]
  simp only [midnight]
  congr 1
  ring

theorem midnight_abs (k : Int) (loc : Location) (hloc : loc.tx = []) :
    (midnight k loc).abs = k * 86400 := by
  have hz : (midnight k loc).Zone = loc.first := Zone_fixed _ hloc
  simp only [Time.abs, hz]
  simp only [midnight]
  omega

theorem midnight_day (k : Int) (loc : Location) (hloc : loc.tx = []) :
    (midnight k loc).abs / 86400 = k := by
  rw [midnight_abs k loc hloc]; omega

theorem midnight_Date (k : Int) (loc : Location) (hloc : loc.tx = []) :
    (midnight k loc).Date =
      ((absYear k).1, (monthDay (absYear k).1 (absYear k).2).1,
        (monthDay (absYear k).1 (absYear k).2).2) := by
  simp only [Time.Date, midnight_day k loc hloc]

theorem midnight_Clock (k : Int) (loc : Location) (hloc : loc.tx = []) :
    (midnight k loc).Clock = (0, 0, 0) := by
  have h : (k * 86400) % 86400 = 0 := by omega
  simp only [Time.Clock, midnight_abs k loc hloc, h]
  simp

theorem midnight_Nanosecond (k : Int) (loc : Location) : (midnight k loc).Nanosecond = 0 := by
  simp only [Time.Nanosecond, midnight]
  omega

/-- In a location without transitions every instant lies in the day that
`Time.Date` reports for it. -/
theorem day_bounds (t : Time) (hloc : t.loc.tx = []) :
    (midnight (t.abs / 86400) t.loc).ns ≤ t.ns ∧
    t.ns < (midnight (t.abs / 86400) t.loc).ns + 86400000000000 := by
  simp only [midnight, Time.abs, Zone_fixed t hloc]
  omega

/-- The year, month and day of an instant form a date of the calendar whose
day number is the day the instant lies in. -/
theorem Time_Date_valid (t : Time) :
    validDate t.Year t.Month t.Day ∧ dayNumber t.Year t.Month t.Day = t.abs / 86400 := by
  simp only [Time.Year, Time.Month, Time.Day, Time.Date]
  exact absDate_spec (t.abs / 86400)

/-- The date of the start of the day of a calendar date is that date. -/
theorem midnight_dayNumber_Date (y m d : Int) (loc : Location) (hloc : loc.tx = [])
    (hv : validDate y m d) : (midnight (dayNumber y m d) loc).Date = (y, m, d) := by
  rw [midnight_Date _ _ hloc]
  obtain ⟨h1, h2, h3⟩ := absDate_dayNumber y m d hv
  rw [h2, h3, h1]

/-- One year after the start of the day of a calendar date. -/
theorem midnight_AddDate (y m d : Int) (loc : Location) (hloc : loc.tx = [])
    (hv : validDate y m d) :
    (midnight (dayNumber y m d) loc).AddDate 1 0 0 = midnight (dayNumber (y + 1) m d) loc := by
  have hv' := hv
  obtain ⟨a1, a2, _, _⟩ := hv'
  simp only [Time.AddDate, midnight_dayNumber_Date y m d loc hloc hv, midnight_Clock _ _ hloc,
    midnight_Nanosecond, Time.Location]
  have : (midnight (dayNumber y m d) loc).loc = loc := rfl
  rw [this]
  simpa using Date_eq_midnight (y + 1) m d loc hloc a1 a2

/-! ## Facts about `float64` rounding -/

theorem log2F_spec (fuel : Nat) : ∀ n : Nat, n ≤ fuel → 1 ≤ n →
    2 ^ log2F fuel n ≤ n ∧ n < 2 ^ (log2F fuel n + 1) := by
  induction fuel with
  | zero => intro n h0 h1; omega
  | succ fuel ih =>
    intro n hn h1
    unfold log2F
    split
    · rename_i h2
      obtain ⟨ih1, ih2⟩ := ih (n / 2) (by omega) (by omega)
      constructor
      · rw [pow_succ]; omega
      · rw [pow_succ]; omega
    · have : n = 1 := by omega
      subst this
      simp

/-- The value `ilog2 n` is the position of the leading bit of `n ≥ 1`. -/
theorem ilog2_spec (n : Nat) (h : 1 ≤ n) : 2 ^ ilog2 n ≤ n ∧ n < 2 ^ (ilog2 n + 1) :=
  log2F_spec n n (le_refl n) h

/-- Rounding a quotient to an integer, ties to even, stays below every integer
that bounds the quotient from above. -/
theorem roundInt_le (a D N : Nat) (hD : 0 < D) (h : a ≤ N * D) :
    (if 2 * (a % D) < D then a / D else if D < 2 * (a % D) then a / D + 1
      else a / D + a / D % 2) ≤ N := by
  have hf : a / D ≤ N := by
    apply Nat.div_le_of_le_mul
    rw [Nat.mul_comm]; exact h
  rcases Nat.lt_or_ge (a / D) N with hlt | hge
  · split
    · omega
    · split <;> omega
  · have hfe : a / D = N := by omega
    have hm : a % D = 0 := by
      have := Nat.div_add_mod a D
      rw [hfe] at this
      have h' : D * N + a % D ≤ D * N := by rw [this, Nat.mul_comm]; exact h
      omega
    rw [hm]
    simp [hD, hfe]

/-- Rounding a quotient to an integer stays above every integer that bounds
the quotient from below. -/
theorem roundInt_ge (a D N : Nat) (hD : 0 < D) (h : N * D ≤ a) :
    N ≤ (if 2 * (a % D) < D then a / D else if D < 2 * (a % D) then a / D + 1
      else a / D + a / D % 2) := by
  have hf : N ≤ a / D := (Nat.le_div_iff_mul_le hD).2 h
  split
  · omega
  · split <;> omega

theorem ilog2_zero : ilog2 0 = 0 := rfl

/-- Whenever the spacing `2 ^ k` chosen by `roundNat` exceeds `2 ^ j`, the
quotient has reached `2 ^ (52 + k)`. -/
theorem spacing_reached (a q k : Nat) (hq : 0 < q) (hk : k = ilog2 (a / q) - 52) (hpos : 0 < k) :
    2 ^ 52 * (q * 2 ^ k) ≤ a ∧ 2 ^ (52 + k) ≤ a / q := by
  have hx : 1 ≤ a / q := by
    rcases Nat.eq_zero_or_pos (a / q) with h0 | h0
    · rw [h0, ilog2_zero] at hk; omega
    · exact h0
  have hL : ilog2 (a / q) = 52 + k := by omega
  have h1 := (ilog2_spec (a / q) hx).1
  rw [hL] at h1
  refine ⟨?_, h1⟩
  have h2 : 2 ^ (52 + k) * q ≤ a := (Nat.le_div_iff_mul_le hq).1 h1
  calc 2 ^ 52 * (q * 2 ^ k) = 2 ^ (52 + k) * q := by rw [pow_add]; ring
    _ ≤ a := h2

/-- Rounding never exceeds a representable number that bounds the quotient
from above. -/
theorem roundNat_le (a q B : Nat) (hq : 0 < q) (hB : representable B) (h : a ≤ B * q) :
    Float64.roundNat a q ≤ B := by
  obtain ⟨m, j, rfl, hm⟩ := hB
  unfold Float64.roundNat
  generalize hk : ilog2 (a / q) - 52 = k
  have hD : 0 < q * 2 ^ k := Nat.mul_pos hq (by positivity)
  have hN : ∃ N : Nat, m * 2 ^ j = N * 2 ^ k := by
    rcases Nat.lt_or_ge j k with hjk | hjk
    · obtain ⟨_, h2⟩ := spacing_reached a q k hq hk.symm (by omega)
      have hx : a / q ≤ m * 2 ^ j := by
        apply Nat.div_le_of_le_mul
        rw [Nat.mul_comm]; exact h
      have hb : m * 2 ^ j ≤ 2 ^ (52 + k) := by
        calc m * 2 ^ j ≤ 2 ^ 53 * 2 ^ j := Nat.mul_le_mul_right _ hm
          _ = 2 ^ (53 + j) := by rw [pow_add]
          _ ≤ 2 ^ (52 + k) := Nat.pow_le_pow_right (by norm_num) (by omega)
      refine ⟨2 ^ 52, ?_⟩
      rw [← pow_add]
      omega
    · refine ⟨m * 2 ^ (j - k), ?_⟩
      rw [Nat.mul_assoc, ← pow_add]
      congr 2
      omega
  obtain ⟨N, hN⟩ := hN
  have ha : a ≤ N * (q * 2 ^ k) := by
    calc a ≤ m * 2 ^ j * q := h
      _ = N * (q * 2 ^ k) := by rw [hN]; ring
  have hr := roundInt_le a (q * 2 ^ k) N hD ha
  simp only []
  rw [hN]
  exact Nat.mul_le_mul_right _ hr

/-- Rounding never falls below a representable number that bounds the
quotient from below. -/
theorem roundNat_ge (a q B : Nat) (hq : 0 < q) (hB : representable B) (h : B * q ≤ a) :
    B ≤ Float64.roundNat a q := by
  obtain ⟨m, j, rfl, hm⟩ := hB
  unfold Float64.roundNat
  generalize hk : ilog2 (a / q) - 52 = k
  have hD : 0 < q * 2 ^ k := Nat.mul_pos hq (by positivity)
  simp only []
  rcases Nat.lt_or_ge j k with hjk | hjk
  · obtain ⟨h1, _⟩ := spacing_reached a q k hq hk.symm (by omega)
    have hr := roundInt_ge a (q * 2 ^ k) (2 ^ 52) hD h1
    calc m * 2 ^ j ≤ 2 ^ 53 * 2 ^ j := Nat.mul_le_mul_right _ hm
      _ = 2 ^ (53 + j) := by rw [pow_add]
      _ ≤ 2 ^ (52 + k) := Nat.pow_le_pow_right (by norm_num) (by omega)
      _ = 2 ^ 52 * 2 ^ k := by rw [pow_add]
      _ ≤ _ := Nat.mul_le_mul_right _ hr
  · have hN : m * 2 ^ j = m * 2 ^ (j - k) * 2 ^ k := by
      rw [Nat.mul_assoc, ← pow_add]
      congr 2
      omega
    have ha : m * 2 ^ (j - k) * (q * 2 ^ k) ≤ a := by
      calc m * 2 ^ (j - k) * (q * 2 ^ k) = m * 2 ^ j * q := by rw [hN]; ring
        _ ≤ a := h
    have hr := roundInt_ge a (q * 2 ^ k) (m * 2 ^ (j - k)) hD ha
    rw [hN]
    exact Nat.mul_le_mul_right _ hr

/-! ## The day count of `daysUntil` on a non-negative duration -/

theorem round_natCast (a q : Nat) :
    Float64.round (a : Int) q = ⟨(Float64.roundNat a q : Nat)⟩ := by
  simp [Float64.round]

/-- Integers of at most 53 bits convert to `float64` exactly. -/
theorem ofInt_natCast (n : Nat) (h : n ≤ 2 ^ 53) :
    Float64.ofInt (n : Int) = ⟨((n * Float64.one : Nat) : Int)⟩ := by
  have hrep : representable (n * Float64.one) := ⟨n, 1074, rfl, h⟩
  have h1 := roundNat_le (n * Float64.one) 1 (n * Float64.one) (by norm_num) hrep (by simp)
  have h2 := roundNat_ge (n * Float64.one) 1 (n * Float64.one) (by norm_num) hrep (by simp)
  have h3 : Float64.roundNat (n * Float64.one) 1 = n * Float64.one := le_antisymm h1 h2
  unfold Float64.ofInt
  have : (n : Int) * (Float64.one : Int) = ((n * Float64.one : Nat) : Int) := by push_cast; rfl
  rw [this, round_natCast, h3]

theorem add_natCast (x y : Nat) :
    Float64.add ⟨(x : Int)⟩ ⟨(y : Int)⟩ = ⟨(Float64.roundNat (x + y) 1 : Nat)⟩ := by
  unfold Float64.add
  have : (x : Int) + (y : Int) = ((x + y : Nat) : Int) := by push_cast; rfl
  simp only [this, round_natCast]

theorem div_natCast (x y : Nat) :
    Float64.div ⟨(x : Int)⟩ ⟨(y : Int)⟩ = ⟨(Float64.roundNat (x * Float64.one) y : Nat)⟩ := by
  unfold Float64.div
  have : (x : Int) * (Float64.one : Int) = ((x * Float64.one : Nat) : Int) := by push_cast; rfl
  simp only [this, Int.toNat_ofNat, round_natCast]
  simp

theorem toInt_natCast (x : Nat) : Float64.toInt ⟨(x : Int)⟩ = ((x / Float64.one : Nat) : Int) := by
  unfold Float64.toInt
  exact (Int.ofNat_tdiv x Float64.one).symm

/-- The day count of `daysUntil` for a duration of `n ≥ 0` nanoseconds, in
natural numbers. -/
theorem days_natCast (n : Nat) (hn : n ≤ 9223372036854775807) :
    Float64.toInt (Float64.div (Duration.Hours (n : Int)) (Float64.ofInt 24)) =
      ((Float64.roundNat
        (Float64.roundNat (n / 3600000000000 * Float64.one +
          Float64.roundNat (n % 3600000000000 * Float64.one * Float64.one)
            (3600000000000 * Float64.one)) 1 * Float64.one)
        (24 * Float64.one) / Float64.one : Nat) : Int) := by
  have e1 : Int.tdiv (n : Int) 3600000000000 = ((n / 3600000000000 : Nat) : Int) :=
    (Int.ofNat_tdiv n 3600000000000).symm
  have e2 : Int.tmod (n : Int) 3600000000000 = ((n % 3600000000000 : Nat) : Int) :=
    (Int.ofNat_tmod n 3600000000000).symm
  have b1 : n / 3600000000000 ≤ 2 ^ 53 := by
    have : n / 3600000000000 ≤ 2562047 := by omega
    have : (2562047 : Nat) ≤ 2 ^ 53 := by norm_num
    omega
  have b2 : n % 3600000000000 ≤ 2 ^ 53 := by
    have : n % 3600000000000 < 3600000000000 := Nat.mod_lt _ (by norm_num)
    have : (3600000000000 : Nat) ≤ 2 ^ 53 := by norm_num
    omega
  have c1 : Float64.ofInt (60 * 60 * 1000000000) = ⟨((3600000000000 * Float64.one : Nat) : Int)⟩ := by
    have := ofInt_natCast 3600000000000 (by norm_num)
    simpa using this
  have c2 : Float64.ofInt 24 = ⟨((24 * Float64.one : Nat) : Int)⟩ := by
    have := ofInt_natCast 24 (by norm_num)
    simpa using this
  simp only [Duration.Hours, e1, e2, ofInt_natCast _ b1, ofInt_natCast _ b2, c1, c2,
    div_natCast, add_natCast, toInt_natCast]

set_option maxRecDepth 100000 in
set_option exponentiation.threshold 2000 in
/-- Known doubles: `1.0 / 10.0` is `0x1.999999999999ap-4` and `1.0 / 3.0` is
`0x1.5555555555555p-2`; `float64(2^53 + 1)` is `2^53` (a tie, rounded to
even) and `float64(2^53 + 3)` is `2^53 + 4`. -/
theorem float64_known_values :
    (Float64.div (Float64.ofInt 1) (Float64.ofInt 10)).units
      = ((7205759403792794 * 2 ^ 1018 : Nat) : Int) ∧
    (Float64.div (Float64.ofInt 1) (Float64.ofInt 3)).units
      = ((6004799503160661 * 2 ^ 1020 : Nat) : Int) ∧
    Float64.ofInt 9007199254740993 = Float64.ofInt 9007199254740992 ∧
    Float64.ofInt 9007199254740995 = Float64.ofInt 9007199254740996 := by
  decide

theorem one_eq : Float64.one = 140737488355328 * 2 ^ 1027 := by
  unfold Float64.one
  rw [show (1074 : Nat) = 47 + 1027 from rfl, pow_add]
  norm_num

theorem pow_1032_eq : (2 : Nat) ^ 1032 = 32 * 2 ^ 1027 := by
  rw [show (1032 : Nat) = 5 + 1027 from rfl, pow_add]
  norm_num

theorem one_pos : 0 < Float64.one := by
  unfold Float64.one
  positivity

/-- A duration of at least `N` whole days counts as at least `N` days. -/
theorem days_lower (N n : Nat) (hn : n ≤ 9223372036854775807)
    (h : N * 86400000000000 ≤ n) :
    (N : Int) ≤ Float64.toInt (Float64.div (Duration.Hours (n : Int)) (Float64.ofInt 24)) := by
  rw [days_natCast n hn]
  have hh : 24 * N ≤ n / 3600000000000 := by omega
  have hN : 24 * N ≤ 2 ^ 53 := by
    have : (2562047 : Nat) ≤ 2 ^ 53 := by norm_num
    omega
  generalize Float64.roundNat (n % 3600000000000 * Float64.one * Float64.one)
    (3600000000000 * Float64.one) = q1
  have hs : 24 * N * Float64.one ≤
      Float64.roundNat (n / 3600000000000 * Float64.one + q1) 1 := by
    apply roundNat_ge _ _ _ (by norm_num) ⟨24 * N, 1074, rfl, hN⟩
    calc 24 * N * Float64.one * 1 = 24 * N * Float64.one := Nat.mul_one _
      _ ≤ n / 3600000000000 * Float64.one := Nat.mul_le_mul_right _ hh
      _ ≤ n / 3600000000000 * Float64.one + q1 := Nat.le_add_right _ _
  generalize Float64.roundNat (n / 3600000000000 * Float64.one + q1) 1 = s at hs
  have ht : N * Float64.one ≤ Float64.roundNat (s * Float64.one) (24 * Float64.one) := by
    apply roundNat_ge _ _ _ (Nat.mul_pos (by norm_num) one_pos) ⟨N, 1074, rfl, by omega⟩
    calc N * Float64.one * (24 * Float64.one) = 24 * N * Float64.one * Float64.one := by ring
      _ ≤ s * Float64.one := Nat.mul_le_mul_right _ hs
  have := (Nat.le_div_iff_mul_le one_pos).2 ht
  exact_mod_cast this

/-- A duration of less than one day counts as zero days. -/
theorem days_zero (n : Nat) (h : n < 86400000000000) :
    Float64.toInt (Float64.div (Duration.Hours (n : Int)) (Float64.ofInt 24)) = 0 := by
  rw [days_natCast n (by omega)]
  have hh : n / 3600000000000 ≤ 23 := by omega
  have hr : n % 3600000000000 ≤ 3599999999999 := by omega
  generalize n / 3600000000000 = hour at hh
  generalize n % 3600000000000 = nsec at hr
  have hq : Float64.roundNat (nsec * Float64.one * Float64.one)
      (3600000000000 * Float64.one) ≤ 4398046511103 * 2 ^ 1032 := by
    apply roundNat_le _ _ _ (Nat.mul_pos (by norm_num) one_pos)
      ⟨4398046511103, 1032, rfl, by norm_num⟩
    have h1 : nsec * Float64.one ≤ 4398046511103 * 2 ^ 1032 * 3600000000000 := by
      have := Nat.mul_le_mul_right Float64.one hr
      rw [one_eq] at this ⊢
      rw [pow_1032_eq]
      omega
    calc nsec * Float64.one * Float64.one
        ≤ 4398046511103 * 2 ^ 1032 * 3600000000000 * Float64.one :=
          Nat.mul_le_mul_right _ h1
      _ = 4398046511103 * 2 ^ 1032 * (3600000000000 * Float64.one) := by ring
  generalize Float64.roundNat (nsec * Float64.one * Float64.one)
    (3600000000000 * Float64.one) = q1 at hq
  have hs : Float64.roundNat (hour * Float64.one + q1) 1 ≤ 105553116266495 * 2 ^ 1032 := by
    apply roundNat_le _ _ _ (by norm_num) ⟨105553116266495, 1032, rfl, by norm_num⟩
    have := Nat.mul_le_mul_right Float64.one hh
    rw [one_eq] at this ⊢
    rw [pow_1032_eq] at hq ⊢
    omega
  generalize Float64.roundNat (hour * Float64.one + q1) 1 = s at hs
  have ht : Float64.roundNat (s * Float64.one) (24 * Float64.one) ≤
      140737488355327 * 2 ^ 1027 := by
    apply roundNat_le _ _ _ (Nat.mul_pos (by norm_num) one_pos)
      ⟨140737488355327, 1027, rfl, by norm_num⟩
    have h1 : s ≤ 140737488355327 * 2 ^ 1027 * 24 := by
      rw [pow_1032_eq] at hs
      omega
    calc s * Float64.one ≤ 140737488355327 * 2 ^ 1027 * 24 * Float64.one :=
          Nat.mul_le_mul_right _ h1
      _ = 140737488355327 * 2 ^ 1027 * (24 * Float64.one) := by ring
  have hlt : Float64.roundNat (s * Float64.one) (24 * Float64.one) < Float64.one := by
    have hp : 0 < 2 ^ 1027 := by positivity
    rw [one_eq] at ht ⊢
    omega
  have := Nat.div_eq_of_lt hlt
  rw [this]
  rfl

/-- A duration of at most `N` whole days counts as at most `N` days. -/
theorem days_upper (N n : Nat) (hN : N ≤ 106751) (h : n ≤ N * 86400000000000) :
    Float64.toInt (Float64.div (Duration.Hours (n : Int)) (Float64.ofInt 24)) ≤ (N : Int) := by
  rw [days_natCast n (by omega)]
  have hh : n / 3600000000000 ≤ 24 * N := by omega
  have hr : n % 3600000000000 ≤ 3600000000000 := by omega
  have hz : n / 3600000000000 = 24 * N → n % 3600000000000 = 0 := by omega
  generalize n / 3600000000000 = hour at hh hz
  generalize n % 3600000000000 = nsec at hr hz
  have h53 : 24 * N ≤ 2 ^ 53 := by
    have : (2562048 : Nat) ≤ 2 ^ 53 := by norm_num
    omega
  have hq : Float64.roundNat (nsec * Float64.one * Float64.one)
      (3600000000000 * Float64.one) ≤ Float64.one := by
    apply roundNat_le _ _ _ (Nat.mul_pos (by norm_num) one_pos) ⟨1, 1074, by rw [Nat.one_mul]; rfl, by norm_num⟩
    calc nsec * Float64.one * Float64.one
        ≤ 3600000000000 * Float64.one * Float64.one :=
          Nat.mul_le_mul_right _ (Nat.mul_le_mul_right _ hr)
      _ = Float64.one * (3600000000000 * Float64.one) := by ring
  have hq0 : nsec = 0 → Float64.roundNat (nsec * Float64.one * Float64.one)
      (3600000000000 * Float64.one) = 0 := by
    intro h0
    have := roundNat_le (nsec * Float64.one * Float64.one) (3600000000000 * Float64.one) 0
      (Nat.mul_pos (by norm_num) one_pos) ⟨0, 0, by simp, by norm_num⟩ (by simp [h0])
    omega
  generalize Float64.roundNat (nsec * Float64.one * Float64.one)
    (3600000000000 * Float64.one) = q1 at hq hq0
  have hsum : hour * Float64.one + q1 ≤ 24 * N * Float64.one := by
    rcases Nat.lt_or_ge hour (24 * N) with hlt | hge
    · calc hour * Float64.one + q1 ≤ hour * Float64.one + Float64.one := Nat.add_le_add_left hq _
        _ = (hour + 1) * Float64.one := by ring
        _ ≤ 24 * N * Float64.one := Nat.mul_le_mul_right _ hlt
    · have he : hour = 24 * N := by omega
      rw [hq0 (hz he), he]
      simp
  have hs : Float64.roundNat (hour * Float64.one + q1) 1 ≤ 24 * N * Float64.one := by
    apply roundNat_le _ _ _ (by norm_num) ⟨24 * N, 1074, rfl, h53⟩
    rw [Nat.mul_one]; exact hsum
  generalize Float64.roundNat (hour * Float64.one + q1) 1 = s at hs
  have ht : Float64.roundNat (s * Float64.one) (24 * Float64.one) ≤ N * Float64.one := by
    apply roundNat_le _ _ _ (Nat.mul_pos (by norm_num) one_pos) ⟨N, 1074, rfl, by omega⟩
    calc s * Float64.one ≤ 24 * N * Float64.one * Float64.one := Nat.mul_le_mul_right _ hs
      _ = N * Float64.one * (24 * Float64.one) := by ring
  have h5 : Float64.roundNat (s * Float64.one) (24 * Float64.one) ≤ Float64.one * N := by
    rw [Nat.mul_comm Float64.one N]; exact ht
  exact Int.ofNat_le.mpr (Nat.div_le_of_le_mul h5)

/-! ## Facts about locations with transitions -/

theorem offsetsWithin_fixed (l : Location) (hloc : l.tx = []) (b : Int)
    (h : -b ≤ l.first ∧ l.first ≤ b) : l.offsetsWithin b := by
  refine ⟨h, ?_⟩
  rw [hloc]
  intro tr htr
  simp at htr

/-- The date `Date` counts for the month and day of a calendar date in another
year is a date of that year: the same month and day, or March 1 for a
February 29 in a year without leap day. -/
theorem dayNumber_normalised (y0 y m d : Int) (hv : validDate y0 m d) :
    ∃ m1 d1 : Int, validDate y m1 d1 ∧ dayNumber y m d = dayNumber y m1 d1 ∧
      ((m = 2 ∧ d = 29 ∧ isLeap y = false ∧ m1 = 3 ∧ d1 = 1) ∨
       (¬ (m = 2 ∧ d = 29 ∧ isLeap y = false) ∧ m1 = m ∧ d1 = d)) := by
  by_cases hf : m = 2 ∧ d = 29 ∧ isLeap y = false
  · obtain ⟨f1, f2, f3⟩ := hf
    refine ⟨3, 1, ?_, ?_, Or.inl ⟨f1, f2, f3, rfl, rfl⟩⟩
    · refine ⟨by norm_num, by norm_num, by norm_num, ?_⟩
      simp [daysIn, daysBefore]
    · rw [f1, f2, dayNumber_feb29 _ f3]
  · exact ⟨m, d, validDate_year _ _ _ _ hv hf, rfl, Or.inr ⟨hf, rfl, rfl⟩⟩

/-- Month and day of an instant that lies on the day `Date` counts for the
month and day of a calendar date. -/
theorem Month_Day_of_day (t : Time) (y0 y m d : Int) (hv : validDate y0 m d)
    (hday : t.abs / 86400 = dayNumber y m d) :
    (m = 2 ∧ d = 29 ∧ isLeap y = false ∧ t.Month = 3 ∧ t.Day = 1) ∨
    (¬ (m = 2 ∧ d = 29 ∧ isLeap y = false) ∧ t.Month = m ∧ t.Day = d) := by
  obtain ⟨m1, d1, hv1, hk, hmd⟩ := dayNumber_normalised y0 y m d hv
  obtain ⟨_, e2, e3⟩ := absDate_dayNumber y m1 d1 hv1
  have hM : t.Month = m1 := by
    simp only [Time.Month, Time.Date, hday, hk]
    exact e2
  have hD : t.Day = d1 := by
    simp only [Time.Day, Time.Date, hday, hk]
    exact e3
  rcases hmd with ⟨f1, f2, f3, g1, g2⟩ | ⟨f1, g1, g2⟩
  · exact Or.inl ⟨f1, f2, f3, by rw [hM, g1], by rw [hD, g2]⟩
  · exact Or.inr ⟨f1, by rw [hM, g1], by rw [hD, g2]⟩

/-- In a location without transitions `Date` with a zero clock lies on the day
it counts. -/
theorem Date_day_fixed (y m d : Int) (loc : Location) (hloc : loc.tx = [])
    (h1 : 1 ≤ m) (h12 : m ≤ 12) :
    (Date y m d 0 0 0 0 loc).abs / 86400 = dayNumber y m d := by
  rw [Date_eq_midnight y m d loc hloc h1 h12, midnight_day _ _ hloc]

/-! ## Facts about the handlers -/

theorem daysUntil_eq_candidate (now birth : Time) :
    daysUntil now birth =
      Float64.toInt (Float64.div (Duration.Hours ((candidate now birth).Sub now))
        (Float64.ofInt 24)) := rfl

theorem getHandler_ok (db : DB) (now nowDays : Time) (c : Context) (birth : Time)
    (h : getUserBirth db c.username = .ok birth) :
    getHandler db now nowDays c = ⟨200, .json (greeting now nowDays c.username birth)⟩ := by
  simp only [getHandler, h, greeting]

/-- In a location without transitions, the date `daysUntil` and `getHandler`
build from the year of `now` and the month and day of `birth` is the start of
a day of that year: the same month and day, or March 1 for a February 29 in a
year without leap day. -/
theorem thisYear_spec (now birth : Time) (hloc : now.loc.tx = []) :
    ∃ m d : Int, validDate now.Year m d ∧
      Date now.Year birth.Month birth.Day 0 0 0 0 now.Location
        = midnight (dayNumber now.Year m d) now.loc ∧
      ((birth.Month = 2 ∧ birth.Day = 29 ∧ isLeap now.Year = false ∧ m = 3 ∧ d = 1) ∨
       (¬ (birth.Month = 2 ∧ birth.Day = 29 ∧ isLeap now.Year = false) ∧
          m = birth.Month ∧ d = birth.Day)) := by
  obtain ⟨hv, _⟩ := Time_Date_valid birth
  have hv' := hv
  obtain ⟨a1, a2, _, _⟩ := hv'
  have hD := Date_eq_midnight now.Year birth.Month birth.Day now.loc hloc a1 a2
  by_cases hf : birth.Month = 2 ∧ birth.Day = 29 ∧ isLeap now.Year = false
  · obtain ⟨f1, f2, f3⟩ := hf
    refine ⟨3, 1, ?_, ?_, Or.inl ⟨f1, f2, f3, rfl, rfl⟩⟩
    · refine ⟨by norm_num, by norm_num, by norm_num, ?_⟩
      simp [daysIn, daysBefore]
    · rw [Time.Location, hD, f1, f2, dayNumber_feb29 _ f3]
  · exact ⟨birth.Month, birth.Day, validDate_year _ _ _ _ hv hf, hD, Or.inr ⟨hf, rfl, rfl⟩⟩

theorem midnight_ns_add (k j : Int) (loc : Location) :
    (midnight (k + j) loc).ns = (midnight k loc).ns + j * 86400000000000 := by
  simp only [midnight]
  ring

/-- The rows after an upsert hold the new birth date under the user name. -/
theorem selectBirth_upsertRows_eq (rows : List (String × Time)) (u : String) (b : Time) :
    selectBirth (upsertRows rows u b) u = some b := by
  induction rows with
  | nil => simp [upsertRows, selectBirth]
  | cons row rest ih =>
    unfold upsertRows
    split
    · rename_i h
      simp [selectBirth, h]
    · rename_i h
      simp [selectBirth, h, ih]

/-- An upsert leaves the rows of other user names alone. -/
theorem selectBirth_upsertRows_ne (rows : List (String × Time)) (u v : String) (b : Time)
    (hne : v ≠ u) : selectBirth (upsertRows rows u b) v = selectBirth rows v := by
  induction rows with
  | nil => simp [upsertRows, selectBirth, Ne.symm hne]
  | cons row rest ih =>
    unfold upsertRows
    split
    · rename_i h
      have : ¬ row.1 = v := by rw [h]; exact Ne.symm hne
      simp [selectBirth, h, Ne.symm hne]
    · rename_i h
      by_cases hv : row.1 = v
      · simp [selectBirth, hv]
      · simp [selectBirth, hv, ih]

theorem keys_upsertRows (rows : List (String × Time)) (u : String) (b : Time) :
    (upsertRows rows u b).map Prod.fst =
      if u ∈ rows.map Prod.fst then rows.map Prod.fst else rows.map Prod.fst ++ [u] := by
  induction rows with
  | nil => simp [upsertRows]
  | cons row rest ih =>
    unfold upsertRows
    by_cases h : row.1 = u
    · simp [h]
    · have h' : ¬ u = row.1 := fun e => h e.symm
      simp only [h, if_false, List.map_cons, ih, List.mem_cons, h', false_or]
      split <;> simp

/-- An upsert keeps the user names of the table distinct and leaves exactly
one row for the user name written. -/
theorem count_upsertRows (rows : List (String × Time)) (u : String) (b : Time)
    (hnd : (rows.map Prod.fst).Nodup) :
    ((upsertRows rows u b).map Prod.fst).Nodup ∧
    ((upsertRows rows u b).map Prod.fst).count u = 1 := by
  rw [keys_upsertRows]
  split
  · rename_i h
    exact ⟨hnd, List.count_eq_one_of_mem hnd h⟩
  · rename_i h
    have hnd' : (rows.map Prod.fst ++ [u]).Nodup := by
      rw [List.nodup_append]
      refine ⟨hnd, List.nodup_singleton u, ?_⟩
      intro a ha hb
      simp at hb
      subst hb
      exact h ha
    exact ⟨hnd', List.count_eq_one_of_mem hnd' (by simp)⟩

theorem MatchString_iff (s : String) :
    usernameRE.MatchString s = true ↔ s ≠ "" ∧ ∀ c ∈ s.data, isLetter c = true := by
  unfold usernameRE.MatchString
  have : s ≠ "" ↔ s.data ≠ [] := by
    constructor
    · intro h hd
      apply h
      exact String.ext hd
    · intro h hs
      apply h
      rw [hs]
  rw [this]
  simp [List.all_eq_true]

/-- A successful `PUT`: valid user name, bound payload, parsed date not after
`now`, database up. -/
theorem putHandler_accept (db : DB) (now : Time) (c : Context) (p : putPayload) (birth : Time)
    (hu : usernameRE.MatchString c.username = true) (hp : c.payload = some p)
    (hd : parseDate p.DateOfBirth = some birth) (ha : birth.After now = false)
    (hdb : db.down = false) :
    putHandler db now c =
      (⟨204, .empty⟩, { db with users := upsertRows db.users c.username birth }) := by
  simp [putHandler, hu, hp, hd, ha, upsertUser, hdb]

/-- A parsed date is the start, in UTC, of the day of a date of the calendar. -/
theorem parseDate_spec (s : String) (b : Time) (h : parseDate s = some b) :
    ∃ y m d : Int, validDate y m d ∧ b = midnight (dayNumber y m d) UTC := by
  unfold parseDate at h
  split at h
  · exact absurd h (by simp)
  · rename_i year month day _
    split at h
    · exact absurd h (by simp)
    · split at h
      · exact absurd h (by simp)
      · rename_i hm hd
        injection h with h
        refine ⟨year, month, day, ⟨by omega, by omega, by omega, by omega⟩, ?_⟩
        rw [← h]
        exact Date_eq_midnight _ _ _ UTC rfl (by omega) (by omega)

/-- A parsed date is midnight UTC of its own year, month and day. -/
theorem parseDate_midnight (s : String) (b : Time) (h : parseDate s = some b) :
    b = Date b.Year b.Month b.Day 0 0 0 0 UTC ∧
    b = midnight (dayNumber b.Year b.Month b.Day) UTC := by
  obtain ⟨y, m, d, hv, rfl⟩ := parseDate_spec s b h
  have hD := midnight_dayNumber_Date y m d UTC rfl hv
  have e1 : (midnight (dayNumber y m d) UTC).Year = y := by rw [Time.Year, hD]
  have e2 : (midnight (dayNumber y m d) UTC).Month = m := by rw [Time.Month, hD]
  have e3 : (midnight (dayNumber y m d) UTC).Day = d := by rw [Time.Day, hD]
  rw [e1, e2, e3]
  exact ⟨(Date_eq_midnight y m d UTC rfl hv.1 hv.2.1).symm, rfl⟩

/-- The two messages of `getHandler` differ. -/
theorem greeting_ne (u s : String) :
    "Hello, " ++ u ++ "! Happy birthday!" ≠
      "Hello, " ++ u ++ "! Your birthday is in " ++ s ++ " day(s)" := by
  intro h
  have h' := congrArg String.data h
  simp at h'

/-- A `PUT` request leaves the database as it is or upserts one row under the
user name of the request. -/
theorem putHandler_db (db : DB) (now : Time) (c : Context) :
    (putHandler db now c).2 = db ∨
    ∃ birth : Time, (putHandler db now c).2 =
      { db with users := upsertRows db.users c.username birth } := by
  unfold putHandler
  simp only []
  split
  · exact Or.inl rfl
  · split
    · exact Or.inl rfl
    · split
      · exact Or.inl rfl
      · rename_i birth _
        split
        · exact Or.inl rfl
        · by_cases hd : db.down = true
          · simp [upsertUser, hd]
          · simp [upsertUser, hd]

/-- A run of `PUT` requests for other user names leaves a user name without a
row. -/
theorem selectBirth_runPuts (u : String) (reqs : List PutRequest) :
    ∀ rows : List (String × Time), selectBirth rows u = none →
      (∀ r ∈ reqs, r.ctx.username ≠ u) → selectBirth (runPuts rows reqs) u = none := by
  induction reqs with
  | nil => intro rows h _; simpa [runPuts] using h
  | cons r rest ih =>
    intro rows h hne
    unfold runPuts
    apply ih
    · have hr : r.ctx.username ≠ u := hne r (by simp)
      rcases putHandler_db ⟨rows, r.down⟩ r.now r.ctx with h1 | ⟨birth, h1⟩
      · rw [h1]; exact h
      · rw [h1]
        simp only []
        rw [selectBirth_upsertRows_ne _ _ _ _ (Ne.symm hr)]
        exact h
    · intro r' hr'
      exact hne r' (by simp [hr'])

/-- A run of `PUT` requests keeps the user names of the table distinct. -/
theorem runPuts_nodup (reqs : List PutRequest) :
    ∀ rows : List (String × Time), (rows.map Prod.fst).Nodup →
      ((runPuts rows reqs).map Prod.fst).Nodup := by
  induction reqs with
  | nil => intro rows h; simpa [runPuts] using h
  | cons r rest ih =>
    intro rows h
    unfold runPuts
    apply ih
    rcases putHandler_db ⟨rows, r.down⟩ r.now r.ctx with h1 | ⟨birth, h1⟩
    · rw [h1]; exact h
    · rw [h1]
      exact (count_upsertRows _ _ _ h).1

theorem Sub_of_range (t u : Time) (h1 : minDuration ≤ t.ns - u.ns)
    (h2 : t.ns - u.ns ≤ maxDuration) : t.Sub u = t.ns - u.ns := by
  unfold Time.Sub
  simp only []
  rw [if_neg (by omega), if_neg (by omega)]

/-- When at least `N` whole days remain until the date `daysUntil` counts to,
it returns at least `N`. -/
theorem daysUntil_ge (now birth : Time) (N : Nat)
    (h1 : (N : Int) * 86400000000000 ≤ (candidate now birth).ns - now.ns)
    (h2 : (candidate now birth).ns - now.ns ≤ maxDuration) :
    (N : Int) ≤ daysUntil now birth := by
  rw [daysUntil_eq_candidate, Sub_of_range _ _ (by unfold minDuration; omega) h2]
  obtain ⟨n, hn⟩ := Int.eq_ofNat_of_zero_le (a := (candidate now birth).ns - now.ns) (by omega)
  rw [hn] at h1 h2 ⊢
  unfold maxDuration at h2
  exact days_lower N n (by omega) (by omega)

/-- When less than one day remains until the date `daysUntil` counts to, it
returns zero. -/
theorem daysUntil_zero (now birth : Time)
    (h1 : 0 ≤ (candidate now birth).ns - now.ns)
    (h2 : (candidate now birth).ns - now.ns < 86400000000000) :
    daysUntil now birth = 0 := by
  rw [daysUntil_eq_candidate,
    Sub_of_range _ _ (by unfold minDuration; omega) (by unfold maxDuration; omega)]
  obtain ⟨n, hn⟩ := Int.eq_ofNat_of_zero_le h1
  rw [hn] at h2 ⊢
  exact days_zero n (by omega)

/-- The date `daysUntil` counts to, in a location without transitions, in
terms of day numbers. -/
theorem candidate_spec (now birth : Time) (hloc : now.loc.tx = []) :
    ∃ m d : Int, validDate now.Year m d ∧
      Date now.Year birth.Month birth.Day 0 0 0 0 now.Location
        = midnight (dayNumber now.Year m d) now.loc ∧
      (Date now.Year birth.Month birth.Day 0 0 0 0 now.Location).Date = (now.Year, m, d) ∧
      ((birth.Month = 2 ∧ birth.Day = 29 ∧ isLeap now.Year = false ∧ m = 3 ∧ d = 1) ∨
       (¬ (birth.Month = 2 ∧ birth.Day = 29 ∧ isLeap now.Year = false) ∧
          m = birth.Month ∧ d = birth.Day)) ∧
      ((midnight (dayNumber now.Year m d) now.loc).ns < now.ns →
        (candidate now birth).ns = (midnight (dayNumber now.Year m d) now.loc).ns
            + 365 * 86400000000000 ∨
        (candidate now birth).ns = (midnight (dayNumber now.Year m d) now.loc).ns
            + 366 * 86400000000000) ∧
      (¬ (midnight (dayNumber now.Year m d) now.loc).ns < now.ns →
        candidate now birth = midnight (dayNumber now.Year m d) now.loc) := by
  obtain ⟨m, d, hv, hT, hmd⟩ := thisYear_spec now birth hloc
  refine ⟨m, d, hv, hT, ?_, hmd, ?_, ?_⟩
  · rw [hT]; exact midnight_dayNumber_Date _ _ _ _ hloc hv
  · intro hlt
    have hc : candidate now birth = midnight (dayNumber (now.Year + 1) m d) now.loc := by
      unfold candidate
      simp only [hT, Time.Before, hlt, decide_True, if_true]
      exact midnight_AddDate _ _ _ _ hloc hv
    rw [hc]
    rcases dayNumber_next_year now.Year m d hv with h | h
    · left; rw [h, midnight_ns_add]
    · right; rw [h, midnight_ns_add]
  · intro hlt
    unfold candidate
    simp only [hT, Time.Before, hlt, decide_False]
    simp

/-- The day number of a date of a year lies in that year. -/
theorem dayNumber_in_year (y m d : Int) (hv : validDate y m d) :
    daysSinceEpoch y ≤ dayNumber y m d ∧ dayNumber y m d < daysSinceEpoch (y + 1) := by
  have hb := yday_bounds y m d hv
  rw [daysSinceEpoch_succ]
  unfold dayNumber
  omega

/-- With a month in `1..12` and a day from 1 on, the day number is not before
the first day of the year. -/
theorem dayNumber_ge (y m d : Int) (h1 : 1 ≤ m) (h12 : m ≤ 12) (hd : 1 ≤ d) :
    daysSinceEpoch y ≤ dayNumber y m d := by
  have ht := month_table y m h1 h12
  unfold dayNumber
  rcases ht with h | h | h | h | h | h | h | h | h | h | h | h <;>
    obtain ⟨rfl, h, _⟩ := h <;> split <;> omega

/-- In a location without transitions the value of `daysUntil` is never
negative and never exceeds 366. -/
theorem daysUntil_bounds (now birth : Time) (hloc : now.loc.tx = []) :
    0 ≤ daysUntil now birth ∧ daysUntil now birth ≤ 366 := by
  obtain ⟨vn, kn⟩ := Time_Date_valid now
  obtain ⟨b1, b2⟩ := day_bounds now hloc
  rw [← kn] at b1 b2
  obtain ⟨m, d, hv, hT, _, _, hadv, hstay⟩ := candidate_spec now birth hloc
  obtain ⟨n1, n2⟩ := dayNumber_in_year _ _ _ vn
  obtain ⟨k1, k2⟩ := dayNumber_in_year _ _ _ hv
  have hs := daysSinceEpoch_succ now.Year
  have hs' : daysSinceEpoch (now.Year + 1) ≤ daysSinceEpoch now.Year + 366 := by
    split at hs <;> omega
  have hrange : 0 ≤ (candidate now birth).ns - now.ns ∧
      (candidate now birth).ns - now.ns ≤ 366 * 86400000000000 := by
    by_cases hlt : (midnight (dayNumber now.Year m d) now.loc).ns < now.ns
    · have hc : candidate now birth = midnight (dayNumber (now.Year + 1) m d) now.loc := by
        unfold candidate
        simp only [hT, Time.Before, hlt, decide_True, if_true]
        exact midnight_AddDate _ _ _ _ hloc hv
      have hge := dayNumber_ge (now.Year + 1) m d hv.1 hv.2.1 hv.2.2.1
      constructor
      · rw [hc]
        simp only [midnight] at b2 ⊢
        omega
      · rcases hadv hlt with e | e <;> rw [e] <;> omega
    · rw [hstay hlt]
      simp only [midnight] at hlt b1 ⊢
      omega
  obtain ⟨r1, r2⟩ := hrange
  have h0 : ((0 : Nat) : Int) ≤ daysUntil now birth :=
    daysUntil_ge now birth 0 (by simpa using r1) (by unfold maxDuration; omega)
  refine ⟨by simpa using h0, ?_⟩
  rw [daysUntil_eq_candidate,
    Sub_of_range _ _ (by unfold minDuration; omega) (by unfold maxDuration; omega)]
  obtain ⟨n, hn⟩ := Int.eq_ofNat_of_zero_le r1
  rw [hn] at r2 ⊢
  exact days_upper 366 n (by norm_num) (by omega)

/-- A day lies in one year only. -/
theorem year_unique (y z x : Int) (h1 : daysSinceEpoch y ≤ x) (h2 : x < daysSinceEpoch (y + 1))
    (h3 : daysSinceEpoch z ≤ x) (h4 : x < daysSinceEpoch (z + 1)) : y = z := by
  by_contra hne
  rcases Int.lt_or_gt_of_ne hne with h | h
  · have := daysSinceEpoch_lt y z h
    rw [← daysSinceEpoch_succ] at this
    omega
  · have := daysSinceEpoch_lt z y h
    rw [← daysSinceEpoch_succ] at this
    omega

/-- On the day before the birthday, after midnight, in a location without
transitions, `daysUntil` counts to the midnight that ends the day, which is
less than 24 hours away. -/
theorem candidate_of_dayBeforeBirthday (t birth : Time) (hloc : t.loc.tx = [])
    (h : dayBeforeBirthday t birth) :
    candidate t birth = Date t.Year t.Month (t.Day + 1) 0 0 0 0 t.Location ∧
    (candidate t birth).ns - 86400000000000 < t.ns ∧ t.ns < (candidate t birth).ns := by
  obtain ⟨hstart, hM, hD⟩ := h
  obtain ⟨vn, kn⟩ := Time_Date_valid t
  obtain ⟨b1, b2⟩ := day_bounds t hloc
  have hs : Date t.Year t.Month t.Day 0 0 0 0 t.Location = midnight (t.abs / 86400) t.loc := by
    rw [Time.Location, Date_eq_midnight _ _ _ _ hloc vn.1 vn.2.1, kn]
  have hnx : Date t.Year t.Month (t.Day + 1) 0 0 0 0 t.Location
      = midnight (t.abs / 86400 + 1) t.loc := by
    rw [Time.Location, Date_eq_midnight _ _ _ _ hloc vn.1 vn.2.1, ← kn]
    congr 1
    unfold dayNumber
    omega
  rw [hs] at hstart
  rw [hnx] at hM hD ⊢
  generalize hnext : midnight (t.abs / 86400 + 1) t.loc = next at hM hD
  have hnl : next.loc = t.loc := by rw [← hnext]; rfl
  have hnloc : next.loc.tx = [] := by rw [hnl]; exact hloc
  have hna : next.abs / 86400 = t.abs / 86400 + 1 := by rw [← hnext, midnight_day _ _ hloc]
  obtain ⟨vx, kx⟩ := Time_Date_valid next
  rw [hna] at kx
  obtain ⟨m, d, hv, hB, hmd⟩ := thisYear_spec next birth hnloc
  have hBD := midnight_dayNumber_Date next.Year m d next.loc hnloc hv
  rw [← hB] at hBD
  have e1 : (Date next.Year birth.Month birth.Day 0 0 0 0 next.Location).Month = m := by
    rw [Time.Month, hBD]
  have e2 : (Date next.Year birth.Month birth.Day 0 0 0 0 next.Location).Day = d := by
    rw [Time.Day, hBD]
  rw [e1] at hM
  rw [e2] at hD
  subst hM hD
  rw [kx] at hB
  -- the year of the next day is the year of `t` or the one after it
  obtain ⟨n1, n2⟩ := dayNumber_in_year _ _ _ vn
  obtain ⟨x1, x2⟩ := dayNumber_in_year _ _ _ vx
  rw [kn] at n1 n2
  rw [kx] at x1 x2
  have hmid : ∀ a b : Int, a ≤ b → (midnight a t.loc).ns ≤ (midnight b t.loc).ns := by
    intro a b hab
    simp only [midnight]
    omega
  have hnns : next.ns = (midnight (t.abs / 86400) t.loc).ns + 86400000000000 := by
    rw [← hnext, midnight_ns_add]
    omega
  have hcand : candidate t birth = next := by
    by_cases hy : t.abs / 86400 + 1 < daysSinceEpoch (t.Year + 1)
    · have hyy : next.Year = t.Year := year_unique _ _ _ x1 x2 (by omega) hy
      have hmd' : Date t.Year birth.Month birth.Day 0 0 0 0 t.Location = next := by
        rw [hyy, Time.Location, hnl] at hB
        rw [Time.Location, hB, hnext]
      unfold candidate
      simp only [hmd', Time.Before]
      rw [if_neg]
      simp only [decide_eq_true_eq]
      omega
    · have hx : t.abs / 86400 + 1 = daysSinceEpoch (t.Year + 1) := by omega
      have v11 : validDate (t.Year + 1) 1 1 := by
        refine ⟨by norm_num, by norm_num, by norm_num, ?_⟩
        simp [daysIn, daysBefore]
      have k11 : dayNumber (t.Year + 1) 1 1 = daysSinceEpoch (t.Year + 1) := by
        simp [dayNumber, daysBefore]
      obtain ⟨i1, i2, i3⟩ := dayNumber_inj _ _ _ _ _ _ vx v11 (by rw [kx, k11, hx])
      have hb11 : birth.Month = 1 ∧ birth.Day = 1 := by
        rcases hmd with ⟨_, _, _, f4, _⟩ | ⟨_, f2, f3⟩
        · omega
        · omega
      have v1 : validDate t.Year 1 1 := by
        refine ⟨by norm_num, by norm_num, by norm_num, ?_⟩
        simp [daysIn, daysBefore]
      have k1 : dayNumber t.Year 1 1 = daysSinceEpoch t.Year := by
        simp [dayNumber, daysBefore]
      have hty : Date t.Year birth.Month birth.Day 0 0 0 0 t.Location
          = midnight (dayNumber t.Year 1 1) t.loc := by
        rw [hb11.1, hb11.2, Time.Location, Date_eq_midnight _ _ _ _ hloc (by norm_num) (by norm_num)]
      have hlt : (midnight (dayNumber t.Year 1 1) t.loc).ns < t.ns := by
        have := hmid (dayNumber t.Year 1 1) (t.abs / 86400) (by omega)
        omega
      unfold candidate
      simp only [hty, Time.Before, hlt, decide_True, if_true]
      rw [midnight_AddDate _ _ _ _ hloc v1, k11, ← hx, hnext]
  rw [hcand]
  exact ⟨rfl, by omega, by omega⟩

/-- C1: for every user name that is empty or contains a character outside
`A-Z`/`a-z`, for every outcome of binding the request body, every clock reading
and every state of the database (reachable or not), `putHandler` answers 400
with the text "username must contain only letters" and returns the database
exactly as it was: the upsert is not reached. -/
theorem putHandler_rejects_non_letter_username (db : DB) (now : Time) (c : Context)
    (h : c.username = "" ∨ ∃ ch ∈ c.username.data, isLetter ch = false) :
    putHandler db now c = (⟨400, .text "username must contain only letters"⟩, db) := by
  have hm : usernameRE.MatchString c.username = false := by
    cases hb : usernameRE.MatchString c.username with
    | false => rfl
    | true =>
      obtain ⟨h1, h2⟩ := (MatchString_iff c.username).1 hb
      rcases h with h | ⟨ch, hc, hl⟩
      · exact absurd h h1
      · rw [h2 ch hc] at hl
        exact absurd hl (by simp)
  simp [putHandler, hm]

/-- C1 at the user name `123` of the specification's example, with a body
that would otherwise be accepted. -/
theorem putHandler_rejects_non_letter_username_witness :
    ((⟨"123", some ⟨"1990-05-20"⟩⟩ : Context).username = "" ∨
      ∃ ch ∈ (⟨"123", some ⟨"1990-05-20"⟩⟩ : Context).username.data, isLetter ch = false) ∧
    putHandler ⟨[], false⟩ ⟨1716206400000000000, UTC⟩ ⟨"123", some ⟨"1990-05-20"⟩⟩ =
      (⟨400, .text "username must contain only letters"⟩, ⟨[], false⟩) :=
  ⟨Or.inr ⟨'1', by decide, by decide⟩,
   putHandler_rejects_non_letter_username ⟨[], false⟩ ⟨1716206400000000000, UTC⟩
     ⟨"123", some ⟨"1990-05-20"⟩⟩ (Or.inr ⟨'1', by decide, by decide⟩)⟩

/-- C8: for every letters-only user name and every request body on which
`ShouldBindJSON` returns an error, `putHandler` answers 400 with the text
"invalid JSON" and the database after the request is the database before it. -/
theorem putHandler_invalid_json (db : DB) (now : Time) (c : Context)
    (hu : usernameRE.MatchString c.username = true) (hp : c.payload = none) :
    putHandler db now c = (⟨400, .text "invalid JSON"⟩, db) := by
  simp [putHandler, hu, hp]

/-- C8 for the user name `Alice` and a table that already holds a row. -/
theorem putHandler_invalid_json_witness :
    usernameRE.MatchString (⟨"Alice", none⟩ : Context).username = true ∧
    (⟨"Alice", none⟩ : Context).payload = none ∧
    putHandler ⟨[("Bob", ⟨0, UTC⟩)], false⟩ ⟨1716206400000000000, UTC⟩ ⟨"Alice", none⟩ =
      (⟨400, .text "invalid JSON"⟩, ⟨[("Bob", ⟨0, UTC⟩)], false⟩) :=
  ⟨by decide, rfl,
   putHandler_invalid_json ⟨[("Bob", ⟨0, UTC⟩)], false⟩ ⟨1716206400000000000, UTC⟩
     ⟨"Alice", none⟩ (by decide) rfl⟩

/-- C4: starting from an empty table, after any finite sequence of `PUT`
requests (accepted, rejected or failed) none of which carries the user name of
the `GET` request, `getHandler` answers 404 with the text "user not found"
when the database answers the lookup; the user name need not consist of
letters. -/
theorem getHandler_never_put (reqs : List PutRequest) (now nowDays : Time) (c : Context)
    (h : ∀ r ∈ reqs, r.ctx.username ≠ c.username) :
    getHandler ⟨runPuts [] reqs, false⟩ now nowDays c = ⟨404, .text "user not found"⟩ := by
  have hs := selectBirth_runPuts c.username reqs [] rfl h
  simp [getHandler, getUserBirth, hs]

/-- C4 for `GET /hello/Bob` after an accepted `PUT /hello/Alice`. -/
theorem getHandler_never_put_witness :
    (∀ r ∈ [(⟨⟨1716206400000000000, UTC⟩, false, ⟨"Alice", some ⟨"1990-05-20"⟩⟩⟩ : PutRequest)],
      r.ctx.username ≠ (⟨"Bob", none⟩ : Context).username) ∧
    runPuts [] [(⟨⟨1716206400000000000, UTC⟩, false, ⟨"Alice", some ⟨"1990-05-20"⟩⟩⟩ : PutRequest)]
      = [("Alice", ⟨643161600000000000, UTC⟩)] ∧
    getHandler ⟨runPuts [] [(⟨⟨1716206400000000000, UTC⟩, false,
        ⟨"Alice", some ⟨"1990-05-20"⟩⟩⟩ : PutRequest)], false⟩
      ⟨1716206400000000000, UTC⟩ ⟨1716206400000000000, UTC⟩ ⟨"Bob", none⟩
      = ⟨404, .text "user not found"⟩ :=
  ⟨by decide, by decide,
   getHandler_never_put _ _ _ ⟨"Bob", none⟩ (by decide)⟩

/-- C3: for every letters-only user name `u`, every table with distinct user
names and a database that is up, two `PUT` requests for `u` whose bodies parse
to dates `b1` and `b2` that are not after the respective clock readings both
answer 204; a following `GET` for `u` answers 200 with the greeting computed
from `b2`; the table then holds exactly one row for `u`, and the row of every
other user name is what it was. -/
theorem put_put_get_last_write_wins (db : DB) (now1 now2 now nowDays : Time)
    (c1 c2 cg : Context) (p1 p2 : putPayload) (b1 b2 : Time)
    (hu : usernameRE.MatchString cg.username = true)
    (hc1 : c1.username = cg.username) (hc2 : c2.username = cg.username)
    (hp1 : c1.payload = some p1) (hd1 : parseDate p1.DateOfBirth = some b1)
    (ha1 : b1.After now1 = false)
    (hp2 : c2.payload = some p2) (hd2 : parseDate p2.DateOfBirth = some b2)
    (ha2 : b2.After now2 = false)
    (hdb : db.down = false) (hpk : (db.users.map Prod.fst).Nodup) :
    (putHandler db now1 c1).1 = ⟨204, .empty⟩ ∧
    (putHandler (putHandler db now1 c1).2 now2 c2).1 = ⟨204, .empty⟩ ∧
    getHandler (putHandler (putHandler db now1 c1).2 now2 c2).2 now nowDays cg =
      ⟨200, .json (greeting now nowDays cg.username b2)⟩ ∧
    ((putHandler (putHandler db now1 c1).2 now2 c2).2.users.map Prod.fst).count cg.username = 1 ∧
    ∀ v : String, v ≠ cg.username →
      selectBirth (putHandler (putHandler db now1 c1).2 now2 c2).2.users v =
        selectBirth db.users v := by
  have e1 := putHandler_accept db now1 c1 p1 b1 (hc1 ▸ hu) hp1 hd1 ha1 hdb
  rw [e1]
  have e2 := putHandler_accept { db with users := upsertRows db.users c1.username b1 } now2 c2
    p2 b2 (hc2 ▸ hu) hp2 hd2 ha2 hdb
  rw [e2]
  simp only [hc1, hc2]
  refine ⟨trivial, trivial, ?_, ?_, ?_⟩
  · apply getHandler_ok
    simp [getUserBirth, hdb, selectBirth_upsertRows_eq]
  · exact (count_upsertRows _ _ _ (count_upsertRows _ _ _ hpk).1).2
  · intro v hv
    rw [selectBirth_upsertRows_ne _ _ _ _ hv, selectBirth_upsertRows_ne _ _ _ _ hv]

/-- C3 for `Alice`, first `1990-05-20`, then `1991-06-21`, on a table that
holds a row for `Bob`; the `GET` is on 2024-05-20 at noon UTC. -/
theorem put_put_get_last_write_wins_witness :
    (putHandler ⟨[("Bob", ⟨0, UTC⟩)], false⟩ ⟨1716206400000000000, UTC⟩
      ⟨"Alice", some ⟨"1990-05-20"⟩⟩).1 = ⟨204, .empty⟩ ∧
    (putHandler (putHandler ⟨[("Bob", ⟨0, UTC⟩)], false⟩ ⟨1716206400000000000, UTC⟩
      ⟨"Alice", some ⟨"1990-05-20"⟩⟩).2 ⟨1716206400000000000, UTC⟩
      ⟨"Alice", some ⟨"1991-06-21"⟩⟩).1 = ⟨204, .empty⟩ ∧
    getHandler (putHandler (putHandler ⟨[("Bob", ⟨0, UTC⟩)], false⟩
      ⟨1716206400000000000, UTC⟩ ⟨"Alice", some ⟨"1990-05-20"⟩⟩).2
      ⟨1716206400000000000, UTC⟩ ⟨"Alice", some ⟨"1991-06-21"⟩⟩).2
      ⟨1716206400000000000, UTC⟩ ⟨1716206400000000000, UTC⟩ ⟨"Alice", none⟩ =
      ⟨200, .json (greeting ⟨1716206400000000000, UTC⟩ ⟨1716206400000000000, UTC⟩
        (⟨"Alice", none⟩ : Context).username ⟨677462400000000000, UTC⟩)⟩ ∧
    ((putHandler (putHandler ⟨[("Bob", ⟨0, UTC⟩)], false⟩ ⟨1716206400000000000, UTC⟩
      ⟨"Alice", some ⟨"1990-05-20"⟩⟩).2 ⟨1716206400000000000, UTC⟩
      ⟨"Alice", some ⟨"1991-06-21"⟩⟩).2.users.map Prod.fst).count
        (⟨"Alice", none⟩ : Context).username = 1 ∧
    ∀ v : String, v ≠ (⟨"Alice", none⟩ : Context).username →
      selectBirth (putHandler (putHandler ⟨[("Bob", ⟨0, UTC⟩)], false⟩
        ⟨1716206400000000000, UTC⟩ ⟨"Alice", some ⟨"1990-05-20"⟩⟩).2
        ⟨1716206400000000000, UTC⟩ ⟨"Alice", some ⟨"1991-06-21"⟩⟩).2.users v =
        selectBirth (⟨[("Bob", ⟨0, UTC⟩)], false⟩ : DB).users v :=
  put_put_get_last_write_wins ⟨[("Bob", ⟨0, UTC⟩)], false⟩ ⟨1716206400000000000, UTC⟩
    ⟨1716206400000000000, UTC⟩ ⟨1716206400000000000, UTC⟩ ⟨1716206400000000000, UTC⟩
    ⟨"Alice", some ⟨"1990-05-20"⟩⟩ ⟨"Alice", some ⟨"1991-06-21"⟩⟩ ⟨"Alice", none⟩
    ⟨"1990-05-20"⟩ ⟨"1991-06-21"⟩ ⟨643161600000000000, UTC⟩ ⟨677462400000000000, UTC⟩
    (by decide) rfl rfl rfl (by decide) (by decide) rfl (by decide) (by decide) rfl (by decide)

/-- C9: for every letters-only user name, every body that binds to a payload
whose `dateOfBirth` parses to `birth`, every clock reading `now` and a database
that is up, `putHandler` compares instants: `birth` is midnight UTC of the
parsed date; exactly when that instant is after `now` the request is answered
400 "date of birth must be before today" and the database is left as it was;
otherwise it is answered 204 and the table then holds `birth` under the user
name while the rows of other user names are what they were. In particular a
date before the calendar date of `now` (with the offset in force at `now` at
most 24 hours east of UTC) is accepted and stored. -/
theorem putHandler_compares_instants (db : DB) (now : Time) (c : Context) (p : putPayload)
    (birth : Time) (hu : usernameRE.MatchString c.username = true)
    (hp : c.payload = some p) (hd : parseDate p.DateOfBirth = some birth)
    (hdb : db.down = false) :
    birth = Date birth.Year birth.Month birth.Day 0 0 0 0 UTC ∧
    (now.ns < birth.ns →
      (putHandler db now c).1 = ⟨400, .text "date of birth must be before today"⟩ ∧
      (putHandler db now c).2 = db) ∧
    (¬ now.ns < birth.ns →
      (putHandler db now c).1 = ⟨204, .empty⟩ ∧
      (putHandler db now c).2.down = false ∧
      selectBirth (putHandler db now c).2.users c.username = some birth ∧
      ∀ v : String, v ≠ c.username →
        selectBirth (putHandler db now c).2.users v = selectBirth db.users v) ∧
    (now.Zone ≤ 86400 →
      (birth.Year < now.Year ∨ (birth.Year = now.Year ∧
        (birth.Month < now.Month ∨ (birth.Month = now.Month ∧ birth.Day < now.Day)))) →
      (putHandler db now c).1 = ⟨204, .empty⟩ ∧
      selectBirth (putHandler db now c).2.users c.username = some birth) := by
  obtain ⟨hb1, hb2⟩ := parseDate_midnight _ _ hd
  have hrej : now.ns < birth.ns →
      putHandler db now c = (⟨400, .text "date of birth must be before today"⟩, db) := by
    intro hlt
    simp [putHandler, hu, hp, hd, Time.After, hlt]
  have hacc : ¬ now.ns < birth.ns → putHandler db now c =
      (⟨204, .empty⟩, { db with users := upsertRows db.users c.username birth }) := by
    intro hlt
    exact putHandler_accept db now c p birth hu hp hd (by simp [Time.After, hlt]) hdb
  refine ⟨hb1, ?_, ?_, ?_⟩
  · intro hlt
    rw [hrej hlt]
    exact ⟨rfl, rfl⟩
  · intro hlt
    rw [hacc hlt]
    refine ⟨rfl, hdb, selectBirth_upsertRows_eq _ _ _, ?_⟩
    intro v hv
    exact selectBirth_upsertRows_ne _ _ _ _ hv
  · intro hoff hlex
    have hge : ¬ now.ns < birth.ns := by
      obtain ⟨v1, _⟩ := Time_Date_valid birth
      obtain ⟨v2, k2⟩ := Time_Date_valid now
      have hlt := dayNumber_lt_of_lex _ _ _ _ _ _ v1 v2 hlex
      have hbn : birth.ns = (midnight (dayNumber birth.Year birth.Month birth.Day) UTC).ns := by
        rw [← hb2]
      have hnabs : now.abs = now.ns / 1000000000 + now.Zone + unixEpochDays * 86400 := rfl
      simp only [midnight, UTC] at hbn
      omega
    rw [hacc hge]
    exact ⟨rfl, selectBirth_upsertRows_eq _ _ _⟩

/-- C9 for `PUT /hello/Alice` with `1990-05-20` on 2024-05-20 at noon UTC on
a table that holds a row for `Bob`: the request is answered 204 and the table
then holds both rows. -/
theorem putHandler_compares_instants_witness :
    putHandler ⟨[("Bob", ⟨0, UTC⟩)], false⟩ ⟨1716206400000000000, UTC⟩
        ⟨"Alice", some ⟨"1990-05-20"⟩⟩ =
      (⟨204, .empty⟩, ⟨[("Bob", ⟨0, UTC⟩), ("Alice", ⟨643161600000000000, UTC⟩)], false⟩) ∧
    ¬ (⟨1716206400000000000, UTC⟩ : Time).ns < (⟨643161600000000000, UTC⟩ : Time).ns ∧
    selectBirth (putHandler ⟨[("Bob", ⟨0, UTC⟩)], false⟩ ⟨1716206400000000000, UTC⟩
        ⟨"Alice", some ⟨"1990-05-20"⟩⟩).2.users
        (⟨"Alice", some ⟨"1990-05-20"⟩⟩ : Context).username
      = some ⟨643161600000000000, UTC⟩ :=
  ⟨by decide, by decide,
   ((putHandler_compares_instants ⟨[("Bob", ⟨0, UTC⟩)], false⟩ ⟨1716206400000000000, UTC⟩
      ⟨"Alice", some ⟨"1990-05-20"⟩⟩ ⟨"1990-05-20"⟩ ⟨643161600000000000, UTC⟩
      (by decide) rfl (by decide) rfl).2.2.1 (by decide)).2.2.1⟩

/-- C2, evaluated: on 2024-05-20 at noon UTC the calendar date of `now` is
2024-05-20, and `PUT /hello/Alice` with `{"dateOfBirth":"2024-05-20"}` is
answered 204 and stores the row, because midnight UTC of that date is not
after `now`. -/
theorem putHandler_accepts_today :
    (⟨1716206400000000000, UTC⟩ : Time).Date = (2024, 5, 20) ∧
    parseDate "2024-05-20" = some (Date 2024 5 20 0 0 0 0 UTC) ∧
    putHandler ⟨[], false⟩ ⟨1716206400000000000, UTC⟩ ⟨"Alice", some ⟨"2024-05-20"⟩⟩ =
      (⟨204, .empty⟩, ⟨[("Alice", Date 2024 5 20 0 0 0 0 UTC)], false⟩) := by
  decide

set_option maxRecDepth 100000 in
set_option exponentiation.threshold 2000 in
/-- C5, evaluated: for a birth date on March 1 and `now` one nanosecond after
midnight UTC of 2023-03-01, this year's date is before `now`, so `daysUntil`
counts to 2024-03-01; 366 days less one nanosecond remain, whose truncated
quotient by 24 hours is 365, but `Hours` rounds the 8783.99...97 hours to the
`float64` 8784 and `daysUntil` returns 366. A `GET` whose handler reads the
clock 100 nanoseconds before that midnight and whose `daysUntil` reads it one
nanosecond after answers "Your birthday is in 366 day(s)". -/
theorem daysUntil_returns_366 :
    (Date 2023 3 1 0 0 0 0 UTC).Before ⟨1677628800000000001, UTC⟩ = true ∧
    (candidate ⟨1677628800000000001, UTC⟩ (Date 2000 3 1 0 0 0 0 UTC)).Sub
      ⟨1677628800000000001, UTC⟩ = 366 * 86400000000000 - 1 ∧
    Int.tdiv (366 * 86400000000000 - 1) 86400000000000 = 365 ∧
    Duration.Hours (366 * 86400000000000 - 1) = Float64.ofInt 8784 ∧
    daysUntil ⟨1677628800000000001, UTC⟩ (Date 2000 3 1 0 0 0 0 UTC) = 366 ∧
    getHandler ⟨[("Alice", Date 2000 3 1 0 0 0 0 UTC)], false⟩ ⟨1677628799999999900, UTC⟩
      ⟨1677628800000000001, UTC⟩ ⟨"Alice", none⟩ =
      ⟨200, .json "Hello, Alice! Your birthday is in 366 day(s)"⟩ := by
  decide

set_option maxRecDepth 100000 in
set_option exponentiation.threshold 2000 in
/-- C7 fails for a February 29 birth date in a year without leap day, and
where an offset transition skips the local midnight of the birthday: on
2023-03-01 at noon UTC, for a stored birth date of 2000-02-29, `getHandler`
answers "Happy birthday!" although month and day of `now` (3, 1) are not
those of the birth date (2, 29). In `America/Havana`, where 2024-03-10 begins
at 01:00, `Date` builds 2024-03-09T23:00-05:00 for a birth date of March 10:
at noon of March 9 the answer is "Happy birthday!", at noon of March 10 it is
"Your birthday is in 364 day(s)". -/
theorem getHandler_feb29_greeted_on_march_1 :
    (getHandler ⟨[("Alice", Date 2000 2 29 0 0 0 0 UTC)], false⟩ ⟨1677672000000000000, UTC⟩
        ⟨1677672000000000000, UTC⟩ ⟨"Alice", none⟩ =
        ⟨200, .json "Hello, Alice! Happy birthday!"⟩ ∧
      (⟨1677672000000000000, UTC⟩ : Time).Date = (2023, 3, 1) ∧
      (Date 2000 2 29 0 0 0 0 UTC).Date = (2000, 2, 29) ∧
      ¬ ((Date 2000 2 29 0 0 0 0 UTC).Month = (⟨1677672000000000000, UTC⟩ : Time).Month ∧
        (Date 2000 2 29 0 0 0 0 UTC).Day = (⟨1677672000000000000, UTC⟩ : Time).Day)) ∧
    ((Date 2024 3 10 0 0 0 0 Havana).Date = (2024, 3, 9) ∧
      (Date 2024 3 10 0 0 0 0 Havana).Clock = (23, 0, 0) ∧
      (Date 1990 3 10 0 0 0 0 UTC).Date = (1990, 3, 10) ∧
      (⟨1710003600000000000, Havana⟩ : Time).Date = (2024, 3, 9) ∧
      getHandler ⟨[("Alice", Date 1990 3 10 0 0 0 0 UTC)], false⟩ ⟨1710003600000000000, Havana⟩
        ⟨1710003600000000000, Havana⟩ ⟨"Alice", none⟩ =
        ⟨200, .json "Hello, Alice! Happy birthday!"⟩ ∧
      (⟨1710086400000000000, Havana⟩ : Time).Date = (2024, 3, 10) ∧
      getHandler ⟨[("Alice", Date 1990 3 10 0 0 0 0 UTC)], false⟩ ⟨1710086400000000000, Havana⟩
        ⟨1710086400000000000, Havana⟩ ⟨"Alice", none⟩ =
        ⟨200, .json "Hello, Alice! Your birthday is in 364 day(s)"⟩) := by
  decide

/-- C7, amended: for every stored birth date and every `now` such that the
instant `time.Date` builds from the year of `now` and the month and day of
the birth date lies on the calendar day asked for (always so in a location
without offset transitions; not so when a transition skips that local
midnight back into the day before), a successful `GET` answers 200 with
"Hello, {username}! Happy birthday!" if and only if month and day of `now` are
those of the birth date, or the birth date is a February 29, the year of
`now` has no leap day and `now` is on March 1; in every other case the message
is "Hello, {username}! Your birthday is in {N} day(s)" with
`N = daysUntil birth`. -/
theorem getHandler_greeting (db : DB) (now nowDays : Time) (c : Context) (birth : Time)
    (h : getUserBirth db c.username = .ok birth)
    (hday : now.loc.tx = [] ∨
      (Date now.Year birth.Month birth.Day 0 0 0 0 now.Location).abs / 86400 =
        dayNumber now.Year birth.Month birth.Day) :
    (getHandler db now nowDays c =
        ⟨200, .json ("Hello, " ++ c.username ++ "! Happy birthday!")⟩ ↔
      ((now.Month = birth.Month ∧ now.Day = birth.Day) ∨
        (birth.Month = 2 ∧ birth.Day = 29 ∧ isLeap now.Year = false ∧
          now.Month = 3 ∧ now.Day = 1))) ∧
    (¬ ((now.Month = birth.Month ∧ now.Day = birth.Day) ∨
        (birth.Month = 2 ∧ birth.Day = 29 ∧ isLeap now.Year = false ∧
          now.Month = 3 ∧ now.Day = 1)) →
      getHandler db now nowDays c =
        ⟨200, .json ("Hello, " ++ c.username ++ "! Your birthday is in "
          ++ toString (daysUntil nowDays birth) ++ " day(s)")⟩) := by
  obtain ⟨vn, _⟩ := Time_Date_valid now
  obtain ⟨vb, _⟩ := Time_Date_valid birth
  have hday' : (Date now.Year birth.Month birth.Day 0 0 0 0 now.Location).abs / 86400 =
      dayNumber now.Year birth.Month birth.Day := by
    rcases hday with hloc | hday
    · exact Date_day_fixed _ _ _ _ hloc vb.1 vb.2.1
    · exact hday
  have hmd := Month_Day_of_day _ birth.Year now.Year birth.Month birth.Day vb hday'
  have hcond : (now.Month = (Date now.Year birth.Month birth.Day 0 0 0 0 now.Location).Month ∧
      now.Day = (Date now.Year birth.Month birth.Day 0 0 0 0 now.Location).Day) ↔
      ((now.Month = birth.Month ∧ now.Day = birth.Day) ∨
        (birth.Month = 2 ∧ birth.Day = 29 ∧ isLeap now.Year = false ∧
          now.Month = 3 ∧ now.Day = 1)) := by
    rcases hmd with ⟨f1, f2, f3, e1, e2⟩ | ⟨f1, e1, e2⟩
    · rw [e1, e2]
      constructor
      · rintro ⟨g1, g2⟩
        exact Or.inr ⟨f1, f2, f3, g1, g2⟩
      · rintro (⟨g1, g2⟩ | ⟨_, _, _, g1, g2⟩)
        · obtain ⟨_, _, _, v4⟩ := vn
          rw [g1, g2, f1, f2] at v4
          simp [daysIn, daysBefore, f3] at v4
        · exact ⟨g1, g2⟩
    · rw [e1, e2]
      constructor
      · rintro ⟨g1, g2⟩
        exact Or.inl ⟨g1, g2⟩
      · rintro (⟨g1, g2⟩ | ⟨g1, g2, g3, _, _⟩)
        · exact ⟨g1, g2⟩
        · exact absurd ⟨g1, g2, g3⟩ f1
  rw [getHandler_ok db now nowDays c birth h]
  unfold greeting
  simp only []
  by_cases hc : now.Month = (Date now.Year birth.Month birth.Day 0 0 0 0 now.Location).Month ∧
      now.Day = (Date now.Year birth.Month birth.Day 0 0 0 0 now.Location).Day
  · rw [if_pos hc]
    exact ⟨⟨fun _ => hcond.1 hc, fun _ => rfl⟩, fun hn => absurd (hcond.1 hc) hn⟩
  · rw [if_neg hc]
    refine ⟨⟨fun e => ?_, fun ho => absurd (hcond.2 ho) hc⟩, fun _ => rfl⟩
    have e' : "Hello, " ++ c.username ++ "! Your birthday is in "
        ++ toString (daysUntil nowDays birth) ++ " day(s)"
        = "Hello, " ++ c.username ++ "! Happy birthday!" := by
      injection e with _ e2
      injection e2
    exact absurd e'.symm (greeting_ne _ _)

set_option maxRecDepth 100000 in
set_option exponentiation.threshold 2000 in
/-- C7, amended, for `GET /hello/Alice` with a stored birth date of 1990-11-04
in `America/New_York`, on 2024-11-04 at 10:00 local time (the birthday, the day
after the offset changed) and on 2024-11-03 at 00:30 local time. -/
theorem getHandler_greeting_witness :
    (Date (⟨1730732400000000000, NewYork⟩ : Time).Year (Date 1990 11 4 0 0 0 0 UTC).Month
        (Date 1990 11 4 0 0 0 0 UTC).Day 0 0 0 0
        (⟨1730732400000000000, NewYork⟩ : Time).Location).abs / 86400 =
      dayNumber (⟨1730732400000000000, NewYork⟩ : Time).Year
        (Date 1990 11 4 0 0 0 0 UTC).Month (Date 1990 11 4 0 0 0 0 UTC).Day ∧
    (⟨1730732400000000000, NewYork⟩ : Time).Date = (2024, 11, 4) ∧
    getHandler ⟨[("Alice", Date 1990 11 4 0 0 0 0 UTC)], false⟩ ⟨1730732400000000000, NewYork⟩
      ⟨1730732400000000000, NewYork⟩ ⟨"Alice", none⟩ =
      ⟨200, .json ("Hello, " ++ (⟨"Alice", none⟩ : Context).username ++ "! Happy birthday!")⟩ ∧
    (⟨1730608200000000000, NewYork⟩ : Time).Date = (2024, 11, 3) ∧
    getHandler ⟨[("Alice", Date 1990 11 4 0 0 0 0 UTC)], false⟩ ⟨1730608200000000000, NewYork⟩
      ⟨1730608200000000000, NewYork⟩ ⟨"Alice", none⟩ =
      ⟨200, .json ("Hello, " ++ (⟨"Alice", none⟩ : Context).username
        ++ "! Your birthday is in "
        ++ toString (daysUntil ⟨1730608200000000000, NewYork⟩ (Date 1990 11 4 0 0 0 0 UTC))
        ++ " day(s)")⟩ :=
  ⟨by decide, by decide,
   (getHandler_greeting ⟨[("Alice", Date 1990 11 4 0 0 0 0 UTC)], false⟩
      ⟨1730732400000000000, NewYork⟩ ⟨1730732400000000000, NewYork⟩ ⟨"Alice", none⟩
      (Date 1990 11 4 0 0 0 0 UTC) rfl (Or.inr (by decide))).1.2 (Or.inl (by decide)),
   by decide,
   (getHandler_greeting ⟨[("Alice", Date 1990 11 4 0 0 0 0 UTC)], false⟩
      ⟨1730608200000000000, NewYork⟩ ⟨1730608200000000000, NewYork⟩ ⟨"Alice", none⟩
      (Date 1990 11 4 0 0 0 0 UTC) rfl (Or.inr (by decide))).2 (by decide)⟩

/-- When it is not the birthday for the handler and less than 24 hours remain
at the clock reading of `daysUntil`, the answer is "Your birthday is in 0
day(s)". -/
theorem getHandler_zero_days_of_candidate (db : DB) (now nowDays : Time) (c : Context)
    (birth : Time) (h : getUserBirth db c.username = .ok birth)
    (hnot : ¬ (now.Month = (Date now.Year birth.Month birth.Day 0 0 0 0 now.Location).Month ∧
      now.Day = (Date now.Year birth.Month birth.Day 0 0 0 0 now.Location).Day))
    (h3 : nowDays.ns < (candidate nowDays birth).ns)
    (h4 : (candidate nowDays birth).ns - nowDays.ns < 86400000000000) :
    getHandler db now nowDays c =
      ⟨200, .json ("Hello, " ++ c.username ++ "! Your birthday is in 0 day(s)")⟩ := by
  have hz : daysUntil nowDays birth = 0 := daysUntil_zero nowDays birth (by omega) (by omega)
  rw [getHandler_ok db now nowDays c birth h]
  unfold greeting
  simp only []
  rw [if_neg hnot, hz]
  have e : toString (0 : Int) = "0" := by decide
  have e' : "! Your birthday is in " ++ "0" ++ " day(s)" = "! Your birthday is in 0 day(s)" := by
    decide
  rw [e, String.append_assoc ("Hello, " ++ c.username),
    String.append_assoc ("Hello, " ++ c.username), e']

/-- In a location without transitions, less than 24 hours before the date
counted to it is not the birthday. -/
theorem not_birthday_of_candidate (now birth : Time) (hloc : now.loc.tx = [])
    (h1 : (candidate now birth).ns - 86400000000000 < now.ns)
    (h2 : now.ns < (candidate now birth).ns) :
    ¬ (now.Month = (Date now.Year birth.Month birth.Day 0 0 0 0 now.Location).Month ∧
      now.Day = (Date now.Year birth.Month birth.Day 0 0 0 0 now.Location).Day) := by
  rintro ⟨g1, g2⟩
  obtain ⟨vn, kn⟩ := Time_Date_valid now
  obtain ⟨b1, b2⟩ := day_bounds now hloc
  obtain ⟨m, d, hv, hT, hD, _, hadv, hstay⟩ := candidate_spec now birth hloc
  have e1 : (Date now.Year birth.Month birth.Day 0 0 0 0 now.Location).Month = m := by
    rw [Time.Month, hD]
  have e2 : (Date now.Year birth.Month birth.Day 0 0 0 0 now.Location).Day = d := by
    rw [Time.Day, hD]
  rw [e1] at g1
  rw [e2] at g2
  subst g1 g2
  rw [kn] at hadv hstay
  by_cases hlt : (midnight (now.abs / 86400) now.loc).ns < now.ns
  · rcases hadv hlt with e | e <;> rw [e] at h1 <;> omega
  · rw [hstay hlt] at h2
    omega

set_option maxRecDepth 100000 in
set_option exponentiation.threshold 2000 in
/-- C10 fails on a day of 25 hours and when the second clock reading is past
midnight: in `America/New_York` at 2024-11-03T00:30-04:00, the day before the
birthday of a stored birth date of 1990-11-04, strictly after midnight, 24.5
hours remain to 2024-11-04T00:00-05:00 and `GET` answers "Your birthday is in
1 day(s)". In UTC, for a stored birth date of 1990-05-20, when the handler
reads the clock 100 nanoseconds before 2024-05-20T00:00Z and `daysUntil` reads
it 100 nanoseconds after, `GET` answers "Your birthday is in 364 day(s)". -/
theorem getHandler_one_day_on_long_day :
    (dayBeforeBirthday ⟨1730608200000000000, NewYork⟩ (Date 1990 11 4 0 0 0 0 UTC) ∧
      (⟨1730608200000000000, NewYork⟩ : Time).Date = (2024, 11, 3) ∧
      (⟨1730608200000000000, NewYork⟩ : Time).Clock = (0, 30, 0) ∧
      (candidate ⟨1730608200000000000, NewYork⟩ (Date 1990 11 4 0 0 0 0 UTC)).Sub
        ⟨1730608200000000000, NewYork⟩ = 88200000000000 ∧
      getHandler ⟨[("Alice", Date 1990 11 4 0 0 0 0 UTC)], false⟩
        ⟨1730608200000000000, NewYork⟩ ⟨1730608200000000000, NewYork⟩ ⟨"Alice", none⟩ =
        ⟨200, .json "Hello, Alice! Your birthday is in 1 day(s)"⟩) ∧
    (dayBeforeBirthday ⟨1716163199999999900, UTC⟩ (Date 1990 5 20 0 0 0 0 UTC) ∧
      (⟨1716163199999999900, UTC⟩ : Time).Date = (2024, 5, 19) ∧
      getHandler ⟨[("Alice", Date 1990 5 20 0 0 0 0 UTC)], false⟩
        ⟨1716163199999999900, UTC⟩ ⟨1716163200000000100, UTC⟩ ⟨"Alice", none⟩ =
        ⟨200, .json "Hello, Alice! Your birthday is in 364 day(s)"⟩) := by
  unfold dayBeforeBirthday
  decide

/-- C10, amended: `daysUntil` returns 0 whenever this year's date is after
`now` and less than 24 hours away. For every stored birth date, when it is
not the birthday at the handler's clock reading and the clock reading of
`daysUntil` is before the date counted to and less than 24 hours from it,
`GET` answers 200 with "Hello, {username}! Your birthday is in 0 day(s)". In
locations without offset transitions this is so whenever both clock readings
lie on the calendar day before the birthday, strictly after that day's
midnight. -/
theorem getHandler_zero_days (db : DB) (now nowDays : Time) (c : Context) (birth : Time)
    (h : getUserBirth db c.username = .ok birth) :
    (∀ t : Time, t.ns < (Date t.Year birth.Month birth.Day 0 0 0 0 t.Location).ns →
      (Date t.Year birth.Month birth.Day 0 0 0 0 t.Location).ns - t.ns < 86400000000000 →
      daysUntil t birth = 0) ∧
    (¬ (now.Month = (Date now.Year birth.Month birth.Day 0 0 0 0 now.Location).Month ∧
        now.Day = (Date now.Year birth.Month birth.Day 0 0 0 0 now.Location).Day) →
      nowDays.ns < (candidate nowDays birth).ns →
      (candidate nowDays birth).ns - nowDays.ns < 86400000000000 →
      getHandler db now nowDays c =
        ⟨200, .json ("Hello, " ++ c.username ++ "! Your birthday is in 0 day(s)")⟩) ∧
    (now.loc.tx = [] → nowDays.loc.tx = [] →
      dayBeforeBirthday now birth → dayBeforeBirthday nowDays birth →
      ¬ (now.Month = (Date now.Year birth.Month birth.Day 0 0 0 0 now.Location).Month ∧
        now.Day = (Date now.Year birth.Month birth.Day 0 0 0 0 now.Location).Day) ∧
      daysUntil nowDays birth = 0 ∧
      getHandler db now nowDays c =
        ⟨200, .json ("Hello, " ++ c.username ++ "! Your birthday is in 0 day(s)")⟩) := by
  refine ⟨?_, ?_, ?_⟩
  · intro t g1 g2
    have hc : candidate t birth = Date t.Year birth.Month birth.Day 0 0 0 0 t.Location := by
      unfold candidate
      simp only [Time.Before]
      rw [if_neg]
      simp only [decide_eq_true_eq]
      omega
    apply daysUntil_zero <;> rw [hc] <;> omega
  · intro hnot h3 h4
    exact getHandler_zero_days_of_candidate db now nowDays c birth h hnot h3 h4
  · intro hl1 hl2 e1 e2
    obtain ⟨_, a1, a2⟩ := candidate_of_dayBeforeBirthday now birth hl1 e1
    obtain ⟨_, a3, a4⟩ := candidate_of_dayBeforeBirthday nowDays birth hl2 e2
    have hnot := not_birthday_of_candidate now birth hl1 a1 a2
    exact ⟨hnot, daysUntil_zero nowDays birth (by omega) (by omega),
      getHandler_zero_days_of_candidate db now nowDays c birth h hnot a4 (by omega)⟩

/-- C10, amended, for `GET /hello/Alice` with a stored birth date of
1990-05-20 on 2024-05-19 at noon UTC, and with a stored birth date of
1990-11-04 in `America/New_York` on 2024-11-03 at 10:00 local time, 14 hours
before the birthday. -/
theorem getHandler_zero_days_witness :
    dayBeforeBirthday ⟨1716120000000000000, UTC⟩ (Date 1990 5 20 0 0 0 0 UTC) ∧
    dayBeforeBirthday ⟨1716120000000001000, UTC⟩ (Date 1990 5 20 0 0 0 0 UTC) ∧
    getHandler ⟨[("Alice", Date 1990 5 20 0 0 0 0 UTC)], false⟩ ⟨1716120000000000000, UTC⟩
      ⟨1716120000000001000, UTC⟩ ⟨"Alice", none⟩ =
      ⟨200, .json ("Hello, " ++ (⟨"Alice", none⟩ : Context).username
        ++ "! Your birthday is in 0 day(s)")⟩ ∧
    (⟨1730646000000000000, NewYork⟩ : Time).Date = (2024, 11, 3) ∧
    (⟨1730646000000000000, NewYork⟩ : Time).Clock = (10, 0, 0) ∧
    getHandler ⟨[("Alice", Date 1990 11 4 0 0 0 0 UTC)], false⟩ ⟨1730646000000000000, NewYork⟩
      ⟨1730646000000000000, NewYork⟩ ⟨"Alice", none⟩ =
      ⟨200, .json ("Hello, " ++ (⟨"Alice", none⟩ : Context).username
        ++ "! Your birthday is in 0 day(s)")⟩ :=
  ⟨by unfold dayBeforeBirthday; decide, by unfold dayBeforeBirthday; decide,
   ((getHandler_zero_days ⟨[("Alice", Date 1990 5 20 0 0 0 0 UTC)], false⟩
      ⟨1716120000000000000, UTC⟩ ⟨1716120000000001000, UTC⟩ ⟨"Alice", none⟩
      (Date 1990 5 20 0 0 0 0 UTC) rfl).2.2 rfl rfl (by unfold dayBeforeBirthday; decide)
      (by unfold dayBeforeBirthday; decide)).2.2,
   by decide, by decide,
   (getHandler_zero_days ⟨[("Alice", Date 1990 11 4 0 0 0 0 UTC)], false⟩
      ⟨1730646000000000000, NewYork⟩ ⟨1730646000000000000, NewYork⟩ ⟨"Alice", none⟩
      (Date 1990 11 4 0 0 0 0 UTC) rfl).2.1 (by decide) (by decide) (by decide)⟩

end Birthday
